import Mathlib

/-!
Verification of the ONCE 3D-detection evaluation server
(`pcdet/datasets/once/once_eval/evaluation.py`).

The numeric kernels are embedded over `ℚ`.  The constant `np.pi` is
irrational, so functions that mention it take a parameter `pi : ℚ`; every
theorem below is either parametric in `pi` (so it covers the true constant)
or instantiates `pi` with a rational stand-in for a concrete evaluation.
The helper module `iou_utils.py` (2D rotated intersection) is not part of
the snapshot; it enters as a function parameter `inter2d` constrained by a
spec-modelled predicate.
-/

namespace OnceEval

/-- A 3D bounding box, the 7 scalars `(x, y, z, w, l, h, rot)` of a row of
`boxes_3d` in Lidar coordinates. -/
structure Box where
  x : ℚ
  y : ℚ
  z : ℚ
  w : ℚ
  l : ℚ
  h : ℚ
  rot : ℚ
  deriving DecidableEq, Repr

/-- A box is well formed when its three extents are positive. -/
def Box.Valid (b : Box) : Prop := 0 < b.w ∧ 0 < b.l ∧ 0 < b.h

instance (b : Box) : Decidable b.Valid := by
  unfold Box.Valid; infer_instance

/-- Footprint area `w * l` of a box. -/
def Box.area (b : Box) : ℚ := b.w * b.l

/-- Volume `w * l * h` of a box (`gt_vol` / `pred_vol` in `iou3d_kernel`). -/
def Box.vol (b : Box) : ℚ := b.w * b.l * b.h

/-- Height overlap of two boxes: lines 329-336 of `evaluation.py`
(`max_of_min`, `min_of_max`, `inter_h` with the `inter_h <= 0` clamp). -/
def interH (g p : Box) : ℚ :=
  let maxOfMin := max (g.z - g.h * (1/2)) (p.z - p.h * (1/2))
  let minOfMax := min (g.z + g.h * (1/2)) (p.z + p.h * (1/2))
  let ih := minOfMax - maxOfMin
  if ih ≤ 0 then 0 else ih

/-- One entry of the matrix produced by `iou3d_kernel` (lines 317-345):
`intersection_3d = intersection_2d * inter_h` and
`iou3d = intersection_3d / (gt_vol + pred_vol - intersection_3d)`.
`inter2d` stands for the result of `rotate_iou_gpu_eval` (criterion 2,
the rotated-footprint intersection area), whose source file is not in the
snapshot. -/
def iou3dEntry (inter2d : Box → Box → ℚ) (g p : Box) : ℚ :=
  let intersection3d := inter2d g p * interH g p
  let union3d := g.vol + p.vol - intersection3d
  intersection3d / union3d

/-- `iou3d_kernel`: the full `[N, M]` IoU matrix; every numpy operation in
the source is elementwise over box pairs. -/
def iou3d_kernel (inter2d : Box → Box → ℚ) (gts preds : List Box) : List (List ℚ) :=
  gts.map fun g => preds.map fun p => iou3dEntry inter2d g p

/-- One entry of `iou3d_kernel_with_heading` (lines 347-382): the plain IoU
entry, zeroed when the code's wrapped rotation difference exceeds `pi / 2`.
The source computes `diff_rot = |gt_rot - pred_rot|`, replaces it by
`2*pi - diff_rot` where `diff_rot >= pi`, and zeroes the IoU where the
result exceeds `pi / 2`. -/
def iou3dEntryHeading (pi : ℚ) (inter2d : Box → Box → ℚ) (g p : Box) : ℚ :=
  let diffRot := |g.rot - p.rot|
  let diffRot := if pi ≤ diffRot then 2 * pi - diffRot else diffRot
  if pi / 2 < diffRot then 0 else iou3dEntry inter2d g p

/-- `iou3d_kernel_with_heading`: the `[N, M]` heading-aware IoU matrix. -/
def iou3d_kernel_with_heading (pi : ℚ) (inter2d : Box → Box → ℚ)
    (gts preds : List Box) : List (List ℚ) :=
  gts.map fun g => preds.map fun p => iou3dEntryHeading pi inter2d g p

/-- The yaw difference wrapped to the interval `[0, pi]`, as the spec words
it: reduce `|d|` modulo `2*pi` into `[0, 2*pi)`, then reflect the upper
half onto `[0, pi]`. -/
def wrapToPi (pi d : ℚ) : ℚ :=
  let m := |d| - 2 * pi * (⌊|d| / (2 * pi)⌋ : ℚ)
  if pi < m then 2 * pi - m else m

/-- Modelled from the spec: `rotate_iou_gpu_eval` (module `iou_utils.py`,
absent from the snapshot) returns the 2D rotated-rectangle intersection
area.  For boxes with positive extents that area is nonnegative, at most
either footprint's area, and the intersection of a footprint with itself is
its own area. -/
def Inter2dSpec (inter2d : Box → Box → ℚ) : Prop :=
  ∀ a b : Box, a.Valid → b.Valid →
    0 ≤ inter2d a b ∧ inter2d a b ≤ a.area ∧ inter2d a b ≤ b.area ∧
    inter2d a a = a.area

/-- Modelled from the spec: a concrete executable stand-in for the missing
2D rotated intersection, used to evaluate theorems at concrete inputs: the
minimum of the two footprint areas.  It is exact for identical (or
180-degree rotated) footprints and an upper envelope otherwise, and it
satisfies `Inter2dSpec`. -/
def interMinArea (a b : Box) : ℚ := min a.area b.area

theorem interMinArea_spec : Inter2dSpec interMinArea := by
  intro a b ha hb
  have hA : 0 ≤ a.area := le_of_lt (mul_pos ha.1 ha.2.1)
  have hB : 0 ≤ b.area := le_of_lt (mul_pos hb.1 hb.2.1)
  refine ⟨le_min hA hB, min_le_left _ _, min_le_right _ _, min_self _⟩

theorem interH_nonneg (g p : Box) : 0 ≤ interH g p := by
  unfold interH
  dsimp only
  split
  · exact le_refl 0
  · next h => exact le_of_lt (lt_of_not_le h)

theorem interH_le_left (g p : Box) (hg : 0 ≤ g.h) : interH g p ≤ g.h := by
  unfold interH
  dsimp only
  split
  · exact hg
  · have h1 := min_le_left (g.z + g.h * (1/2)) (p.z + p.h * (1/2))
    have h2 := le_max_left (g.z - g.h * (1/2)) (p.z - p.h * (1/2))
    linarith

theorem interH_le_right (g p : Box) (hp : 0 ≤ p.h) : interH g p ≤ p.h := by
  unfold interH
  dsimp only
  split
  · exact hp
  · have h1 := min_le_right (g.z + g.h * (1/2)) (p.z + p.h * (1/2))
    have h2 := le_max_right (g.z - g.h * (1/2)) (p.z - p.h * (1/2))
    linarith

theorem interH_self (g : Box) (hg : 0 < g.h) : interH g g = g.h := by
  unfold interH
  dsimp only
  simp only [max_self, min_self]
  have : ¬ (g.z + g.h * (1/2) - (g.z - g.h * (1/2)) ≤ 0) := by
    intro h; linarith
  rw [if_neg this]; ring

theorem intersection3d_le_vol_left (inter2d : Box → Box → ℚ)
    (hspec : Inter2dSpec inter2d) (g p : Box) (hg : g.Valid) (hp : p.Valid) :
    inter2d g p * interH g p ≤ g.vol := by
  obtain ⟨h0, hA, _, _⟩ := hspec g p hg hp
  have hle : inter2d g p * interH g p ≤ g.area * g.h :=
    mul_le_mul hA (interH_le_left g p (le_of_lt hg.2.2)) (interH_nonneg g p)
      (le_of_lt (mul_pos hg.1 hg.2.1))
  simpa [Box.area, Box.vol] using hle

theorem intersection3d_le_vol_right (inter2d : Box → Box → ℚ)
    (hspec : Inter2dSpec inter2d) (g p : Box) (hg : g.Valid) (hp : p.Valid) :
    inter2d g p * interH g p ≤ p.vol := by
  obtain ⟨h0, _, hB, _⟩ := hspec g p hg hp
  have hle : inter2d g p * interH g p ≤ p.area * p.h :=
    mul_le_mul hB (interH_le_right g p (le_of_lt hp.2.2)) (interH_nonneg g p)
      (le_of_lt (mul_pos hp.1 hp.2.1))
  simpa [Box.area, Box.vol] using hle

/-- Ground-truth box used in concrete evaluations: a unit cube with yaw 0. -/
def cexGtBox : Box := ⟨0, 0, 0, 1, 1, 1, 0⟩

/-- Predicted box with yaw `9`; with `pi = 3` as the rational stand-in for
`np.pi` this is three half-turns, i.e. `3 * pi`. -/
def cexPredBox : Box := ⟨0, 0, 0, 1, 1, 1, 9⟩

/-- Predicted box with yaw `5/2`, an in-range yaw for `pi = 3`. -/
def cexPredBox2 : Box := ⟨0, 0, 0, 1, 1, 1, 5/2⟩

/-- The degenerate box with all-zero extents. -/
def degBox : Box := ⟨0, 0, 0, 0, 0, 0, 0⟩

/-- C1 (counterexample): with `pi = 3` standing for `np.pi`, the yaw pair
`0` vs `9 = 3 * pi` has yaw difference `pi` once wrapped to `[0, pi]`, which
exceeds `pi / 2`; yet the heading-aware kernel leaves the pair's IoU at `1`,
because the source's one-step reflection `2*pi - |d|` mis-wraps differences
beyond one full turn (it yields `-pi`, which fails the `> pi/2` test).  So
the claim as stated fails without a `|d| ≤ 2*pi` restriction. -/
theorem C1_counterexample :
    Inter2dSpec interMinArea ∧
    3 / 2 < wrapToPi 3 (cexGtBox.rot - cexPredBox.rot) ∧
    iou3d_kernel_with_heading 3 interMinArea [cexGtBox] [cexPredBox] = [[1]] :=
  ⟨interMinArea_spec,
    by norm_num [wrapToPi, cexGtBox, cexPredBox],
    by norm_num [iou3d_kernel_with_heading, iou3dEntryHeading, iou3dEntry,
      interMinArea, interH, Box.area, Box.vol, cexGtBox, cexPredBox]⟩

/-- C1 (amended): for every positive `pi`, every 2D-intersection routine and
every pair of boxes whose raw yaw difference lies within one full turn
(`|Δrot| ≤ 2*pi`), if the yaw difference wrapped to `[0, pi]` exceeds
`pi / 2` then the heading-aware 3D IoU of the pair is `0`, regardless of how
much the boxes spatially overlap. -/
theorem C1_amended (pi : ℚ) (hpi : 0 < pi) (inter2d : Box → Box → ℚ)
    (g p : Box) (hd : |g.rot - p.rot| ≤ 2 * pi)
    (hw : pi / 2 < wrapToPi pi (g.rot - p.rot)) :
    iou3dEntryHeading pi inter2d g p = 0 := by
  have habs : 0 ≤ |g.rot - p.rot| := abs_nonneg _
  unfold wrapToPi at hw
  dsimp only at hw
  rcases lt_or_eq_of_le hd with hlt | heq
  · have hfl : ⌊|g.rot - p.rot| / (2 * pi)⌋ = 0 := by
      rw [Int.floor_eq_zero_iff, Set.mem_Ico]
      exact ⟨div_nonneg habs (by linarith), (div_lt_one (by linarith)).mpr hlt⟩
    rw [hfl] at hw
    push_cast at hw
    rw [mul_zero, sub_zero] at hw
    unfold iou3dEntryHeading
    dsimp only
    rw [if_pos]
    split_ifs with h2
    · by_cases h3 : pi < |g.rot - p.rot|
      · rwa [if_pos h3] at hw
      · have hep : |g.rot - p.rot| = pi := le_antisymm (not_lt.mp h3) h2
        rw [hep]
        linarith
    · rw [if_neg (by intro h; exact h2 (le_of_lt h))] at hw
      exact hw
  · have h2pi : (0:ℚ) < 2 * pi := by linarith
    have hone : |g.rot - p.rot| / (2 * pi) = 1 := by
      rw [heq]; field_simp
    rw [hone, Int.floor_one] at hw
    push_cast at hw
    rw [mul_one, heq, sub_self] at hw
    rw [if_neg (by intro h; linarith)] at hw
    linarith

/-- Witness for `C1_amended`: `pi = 3`, yaw pair `0` vs `5/2`; the wrapped
difference `5/2` exceeds `3/2` and the heading-aware IoU entry is `0`. -/
theorem C1_amended_witness :
    ((0:ℚ) < 3 ∧ |cexGtBox.rot - cexPredBox2.rot| ≤ 2 * 3 ∧
      3 / 2 < wrapToPi 3 (cexGtBox.rot - cexPredBox2.rot)) ∧
    iou3dEntryHeading 3 interMinArea cexGtBox cexPredBox2 = 0 :=
  ⟨⟨by norm_num, by norm_num [cexGtBox, cexPredBox2, abs_of_nonpos],
      by norm_num [wrapToPi, cexGtBox, cexPredBox2, abs_of_nonneg, abs_of_nonpos]⟩,
    C1_amended 3 (by norm_num) interMinArea cexGtBox cexPredBox2
      (by norm_num [cexGtBox, cexPredBox2, abs_of_nonpos])
      (by norm_num [wrapToPi, cexGtBox, cexPredBox2, abs_of_nonneg, abs_of_nonpos])⟩

/-- C2 (counterexample): the degenerate box with all-zero extents has
self-intersection `0` and union `0`, so its self-IoU is `0/0`: `0` in the
rational embedding (`NaN` under numpy float semantics), in either case not
`1`.  The claim fails without a positive-extent assumption. -/
theorem C2_counterexample : iou3dEntry interMinArea degBox degBox ≠ 1 := by
  norm_num [iou3dEntry, interMinArea, interH, Box.area, Box.vol, degBox]

/-- C2 (amended): for boxes with positive extents, and any 2D intersection
routine meeting the spec-modelled contract, every 3D IoU value lies in
`[0, 1]` and the IoU of a box with itself equals `1`. -/
theorem C2_amended (inter2d : Box → Box → ℚ) (hspec : Inter2dSpec inter2d)
    (g p : Box) (hg : g.Valid) (hp : p.Valid) :
    0 ≤ iou3dEntry inter2d g p ∧ iou3dEntry inter2d g p ≤ 1 ∧
    iou3dEntry inter2d g g = 1 := by
  have hvolg : 0 < g.vol := by
    have := mul_pos (mul_pos hg.1 hg.2.1) hg.2.2
    simpa [Box.vol] using this
  have hvolp : 0 < p.vol := by
    have := mul_pos (mul_pos hp.1 hp.2.1) hp.2.2
    simpa [Box.vol] using this
  have h0 : 0 ≤ inter2d g p * interH g p :=
    mul_nonneg (hspec g p hg hp).1 (interH_nonneg g p)
  have hL := intersection3d_le_vol_left inter2d hspec g p hg hp
  have hR := intersection3d_le_vol_right inter2d hspec g p hg hp
  have hunion : 0 < g.vol + p.vol - inter2d g p * interH g p := by linarith
  refine ⟨?_, ?_, ?_⟩
  · unfold iou3dEntry
    dsimp only
    exact div_nonneg h0 (le_of_lt hunion)
  · unfold iou3dEntry
    dsimp only
    rw [div_le_one hunion]
    linarith
  · unfold iou3dEntry
    dsimp only
    rw [(hspec g g hg hg).2.2.2, interH_self g hg.2.2]
    have hv : g.area * g.h = g.vol := rfl
    rw [hv, add_sub_cancel_right]
    exact div_self (ne_of_gt hvolg)

/-- Witness for `C2_amended` at two concrete unit cubes and the concrete
2D-intersection stand-in. -/
theorem C2_amended_witness :
    0 ≤ iou3dEntry interMinArea cexGtBox cexPredBox ∧
    iou3dEntry interMinArea cexGtBox cexPredBox ≤ 1 ∧
    iou3dEntry interMinArea cexGtBox cexGtBox = 1 :=
  C2_amended interMinArea interMinArea_spec cexGtBox cexPredBox
    (by norm_num [Box.Valid, cexGtBox]) (by norm_num [Box.Valid, cexPredBox])

/-- `eps = 1e-6`, the "avoid numerical errors" slack in `get_thresholds`. -/
def eps : ℚ := 1 / 1000000

/-- The inner `while` of `get_thresholds` (lines 170-174): while
`target > 2 * recall_level`, append `score` and advance `recall_level` by
`1 / num_pr_points`, where `target = r_recall + l_recall + eps`.  The
`0 < p` guard is a termination artifact: the source raises a
division-by-zero error when `num_pr_points = 0`. -/
def thWhile (p : ℕ) (target score rl : ℚ) (ths : List ℚ) : ℚ × List ℚ :=
  if h : 0 < p ∧ 2 * rl < target then
    thWhile p target score (rl + 1 / p) (ths ++ [score])
  else (rl, ths)
termination_by (⌈(target / 2 - rl) * p⌉).toNat
decreasing_by
  have hp : (0:ℚ) < p := by exact_mod_cast h.1
  have key : (target / 2 - (rl + 1 / (p:ℚ))) * p = (target / 2 - rl) * p - 1 := by
    field_simp
    ring
  rw [key, Int.ceil_sub_one]
  have hpos : 0 < ⌈(target / 2 - rl) * (p:ℚ)⌉ :=
    Int.ceil_pos.mpr (mul_pos (by linarith [h.2]) hp)
  omega

/-- Closed form of the `while` loop: it appends
`⌈(target/2 - recall_level) * num_pr_points⌉⁺` copies of `score` and
advances `recall_level` accordingly. -/
theorem thWhile_closed (p : ℕ) (hp : 0 < p) (target score : ℚ) :
    ∀ (rl : ℚ) (ths : List ℚ),
      thWhile p target score rl ths =
        (rl + ((⌈(target / 2 - rl) * p⌉.toNat : ℚ)) / p,
         ths ++ List.replicate ⌈(target / 2 - rl) * p⌉.toNat score) := by
  have hpq : (0:ℚ) < p := by exact_mod_cast hp
  intro rl ths
  generalize hk : ⌈(target / 2 - rl) * (p:ℚ)⌉.toNat = k
  induction k generalizing rl ths with
  | zero =>
    have hc : ¬ 2 * rl < target := by
      intro hlt
      have : 0 < ⌈(target / 2 - rl) * (p:ℚ)⌉ :=
        Int.ceil_pos.mpr (mul_pos (by linarith) hpq)
      omega
    rw [thWhile, dif_neg (by tauto)]
    simp [hk]
  | succ k ih =>
    have hc : 2 * rl < target := by
      by_contra hnc
      have : ⌈(target / 2 - rl) * (p:ℚ)⌉ ≤ 0 := by
        have hle : (target / 2 - rl) * (p:ℚ) ≤ 0 :=
          mul_nonpos_of_nonpos_of_nonneg (by linarith [not_lt.mp hnc]) (le_of_lt hpq)
        exact_mod_cast Int.ceil_le.mpr (by exact_mod_cast hle)
      omega
    rw [thWhile, dif_pos ⟨hp, hc⟩]
    have key : (target / 2 - (rl + 1 / (p:ℚ))) * p = (target / 2 - rl) * p - 1 := by
      field_simp
      ring
    have hnext : ⌈(target / 2 - (rl + 1 / (p:ℚ))) * p⌉.toNat = k := by
      rw [key, Int.ceil_sub_one]
      omega
    rw [ih _ _ hnext]
    refine Prod.ext ?_ ?_
    · show rl + 1 / (p:ℚ) + (k:ℚ) / p = rl + ((k+1 : ℕ):ℚ) / p
      push_cast
      ring
    · show ths ++ [score] ++ List.replicate k score
        = ths ++ List.replicate (k+1) score
      simp [List.replicate_succ, List.append_assoc]

/-- The main loop of `get_thresholds` (lines 160-174), processing the
descending-sorted scores paired with their indices; `g` is `num_gt`, `p` is
`num_pr_points` and `len` the number of scores. -/
def thLoop (g p len : ℕ) : List (ℕ × ℚ) → ℚ → List ℚ → List ℚ
  | [], _, ths => ths
  | (i, score) :: rest, rl, ths =>
    let lRecall : ℚ := ((i:ℚ) + 1) / (g:ℚ)
    let rRecall : ℚ := if i < len - 1 then ((i:ℚ) + 2) / (g:ℚ) else lRecall
    if rRecall + lRecall < 2 * rl ∧ i < len - 1 then
      thLoop g p len rest rl ths
    else
      let s := thWhile p (rRecall + lRecall + eps) score (rl + 1 / p) (ths ++ [score])
      thLoop g p len rest s.1 s.2

/-- `get_thresholds` (lines 153-175): sort the accumulated true-positive
scores descending and walk them, emitting thresholds at evenly spaced
recall levels.  The jitted source computes in float64; this embedding is
exact-rational, so the two can disagree at knife-edge comparisons.  Every
statement below about this definition is therefore confined to parameter
regimes whose decisive comparisons carry a margin (at least `eps/2` for
the bound, at least `1/num_pr_points` for the counterexample) that
exceeds the worst-case accumulated float64 rounding drift of the loop by
several orders of magnitude; the knife-edge band around
`num_pr_points = 2/eps = 2*10^6` is excluded from both. -/
def get_thresholds (scores : List ℚ) (num_gt : ℕ) (num_pr_points : ℕ) : List ℚ :=
  let sorted := (scores.insertionSort (· ≤ ·)).reverse
  thLoop num_gt num_pr_points sorted.length sorted.enum 0 []

theorem thWhile_append_bound (p T B : ℕ) (hp : 0 < p) (target : ℚ)
    (hB : T + 1 ≤ B) (htb : target * p / 2 ≤ (B : ℚ)) :
    T + 1 + (⌈(target / 2 - ((T:ℚ)/p + 1/p)) * p⌉).toNat ≤ B := by
  have hpq : (0:ℚ) < p := by exact_mod_cast hp
  have hx : (target / 2 - ((T:ℚ)/p + 1/p)) * p ≤ (((B:ℤ) - T - 1 : ℤ) : ℚ) := by
    push_cast
    have hval : (target / 2 - ((T:ℚ)/p + 1/p)) * p = target * p / 2 - T - 1 := by
      field_simp
      ring
    rw [hval]
    linarith
  have hceil : ⌈(target / 2 - ((T:ℚ)/p + 1/p)) * p⌉ ≤ (B:ℤ) - T - 1 :=
    Int.ceil_le.mpr hx
  omega

/-- Length invariant for the main loop of `get_thresholds`: processing the
suffix of the enumerated scores starting at index `a` with
`recall_level = |thresholds| / num_pr_points` and at most `num_pr_points`
thresholds emitted so far yields at most `num_pr_points + 1` thresholds,
provided the score count is at most `num_gt ≤ 10^6` and
`num_pr_points ≤ 2*10^6`. -/
theorem thLoop_length_le (g p len : ℕ) (hp1 : 1 ≤ p) (hp2 : p ≤ 2000000)
    (hg : g ≤ 1000000) (hlen : len ≤ g) :
    ∀ (l : List ℚ) (a : ℕ) (rl : ℚ) (ths : List ℚ),
      a + l.length = len → rl = (ths.length : ℚ) / p → ths.length ≤ p →
      (thLoop g p len (List.enumFrom a l) rl ths).length ≤ p + 1 := by
  intro l
  induction l with
  | nil =>
    intro a rl ths _ _ hT
    simpa [List.enumFrom, thLoop] using Nat.le_succ_of_le hT
  | cons s l ih =>
    intro a rl ths hlen2 hrl hT
    have halen : a + (l.length + 1) = len := by simpa using hlen2
    have hg0 : 0 < g := by omega
    have hgq : (0:ℚ) < g := by exact_mod_cast hg0
    have hpq : (0:ℚ) < p := by exact_mod_cast hp1
    simp only [List.enumFrom, thLoop]
    by_cases hlast : a < len - 1
    · rw [if_pos hlast]
      by_cases hskip : ((a:ℚ) + 2) / (g:ℚ) + ((a:ℚ) + 1) / (g:ℚ) < 2 * rl
      · rw [if_pos ⟨hskip, hlast⟩]
        exact ih (a+1) rl ths (by omega) hrl hT
      · rw [if_neg (fun hand => hskip hand.1)]
        have hfrac : ((a:ℚ) + 2) / (g:ℚ) + ((a:ℚ) + 1) / (g:ℚ) ≤ 2 - 1/(g:ℚ) := by
          rw [div_add_div_same]
          rw [div_le_iff hgq]
          have hcast : ((a:ℚ) + 2) + ((a:ℚ) + 1) = 2 * (a:ℚ) + 3 := by ring
          rw [hcast]
          have hab : (a:ℚ) + 2 ≤ (len:ℚ) := by
            exact_mod_cast (by omega : a + 2 ≤ len)
          have hlg : (len:ℚ) ≤ (g:ℚ) := by exact_mod_cast hlen
          have hexp : (2 - 1/(g:ℚ)) * g = 2 * (g:ℚ) - 1 := by
            field_simp
          rw [hexp]
          linarith
        have hTlt : ths.length + 1 ≤ p := by
          have h2rl : 2 * rl ≤ 2 - 1/(g:ℚ) := le_trans (not_lt.mp hskip) hfrac
          have hginv : 0 < 1/(g:ℚ) := by positivity
          have hrl1 : rl < 1 := by linarith
          rw [hrl] at hrl1
          have : (ths.length:ℚ) < p := (div_lt_one hpq).mp hrl1
          have : ths.length < p := by exact_mod_cast this
          omega
        have hepsg : eps ≤ 1/(g:ℚ) := by
          unfold eps
          rw [div_le_div_iff (by norm_num) hgq]
          have : (g:ℚ) ≤ 1000000 := by exact_mod_cast hg
          linarith
        have htb : (((a:ℚ) + 2) / (g:ℚ) + ((a:ℚ) + 1) / (g:ℚ) + eps) * p / 2 ≤ (p:ℚ) := by
          have htarget : ((a:ℚ) + 2) / (g:ℚ) + ((a:ℚ) + 1) / (g:ℚ) + eps ≤ 2 := by
            linarith
          have hmul : (((a:ℚ) + 2) / (g:ℚ) + ((a:ℚ) + 1) / (g:ℚ) + eps) * p ≤ 2 * p :=
            mul_le_mul_of_nonneg_right htarget (le_of_lt hpq)
          linarith
        rw [thWhile_closed p (by omega)]
        have hbound := thWhile_append_bound p ths.length p (by omega)
          (((a:ℚ) + 2) / (g:ℚ) + ((a:ℚ) + 1) / (g:ℚ) + eps) hTlt htb
        rw [← hrl] at hbound
        apply ih (a+1) _ _ (by omega)
        · simp only [List.length_append, List.length_replicate, List.length_cons,
            List.length_nil]
          rw [hrl]
          push_cast
          ring
        · simp only [List.length_append, List.length_replicate, List.length_cons,
            List.length_nil]
          omega
    · rw [if_neg (fun hand => hlast hand.2), if_neg hlast]
      have hl0 : l = [] := by
        have : l.length = 0 := by omega
        exact List.length_eq_zero.mp this
      subst hl0
      simp only [List.enumFrom]
      rw [thWhile_closed p (by omega)]
      simp only [thLoop]
      simp only [List.length_append, List.length_replicate, List.length_cons,
        List.length_nil]
      have hlR : ((a:ℚ) + 1) / (g:ℚ) ≤ 1 := by
        rw [div_le_one hgq]
        exact_mod_cast (by omega : a + 1 ≤ g)
      have hpe : eps * (p:ℚ) ≤ 2 := by
        unfold eps
        have : (p:ℚ) ≤ 2000000 := by exact_mod_cast hp2
        rw [div_mul_eq_mul_div, one_mul, div_le_iff (by norm_num : (0:ℚ) < 1000000)]
        linarith
      have htb : (((a:ℚ) + 1) / (g:ℚ) + ((a:ℚ) + 1) / (g:ℚ) + eps) * p / 2
          ≤ ((p + 1 : ℕ):ℚ) := by
        have htarget : ((a:ℚ) + 1) / (g:ℚ) + ((a:ℚ) + 1) / (g:ℚ) + eps ≤ 2 + eps := by
          linarith
        have heps0 : 0 ≤ eps := by unfold eps; norm_num
        have hmul : (((a:ℚ) + 1) / (g:ℚ) + ((a:ℚ) + 1) / (g:ℚ) + eps) * p
            ≤ (2 + eps) * p :=
          mul_le_mul_of_nonneg_right htarget (le_of_lt hpq)
        have hexp : (2 + eps) * (p:ℚ) = 2 * p + eps * p := by ring
        push_cast
        linarith
      have hbound := thWhile_append_bound p ths.length (p+1) (by omega)
        (((a:ℚ) + 1) / (g:ℚ) + ((a:ℚ) + 1) / (g:ℚ) + eps) (by omega) htb
      rw [← hrl] at hbound
      omega

/-- Specialization of `thLoop` to a single enumerated score, proved with
symbolic parameters so that the recursion never has to be evaluated on
large literals. -/
theorem thLoop_single (g p : ℕ) (s rl : ℚ) (ths : List ℚ) :
    thLoop g p 1 [(0, s)] rl ths =
      (thWhile p ((((0:ℕ):ℚ) + 1) / (g:ℚ) + (((0:ℕ):ℚ) + 1) / (g:ℚ) + eps) s (rl + 1/p)
        (ths ++ [s])).2 := by
  simp only [thLoop]
  norm_num

/-- C10 (counterexample): with a single accepted score, `num_gt = 1` and
`num_pr_points = 10^7`, the `eps = 1e-6` slack in the recall-advancing
`while` loop admits `p * eps / 2 = 5` extra iterations, so
`get_thresholds` returns `10000005 = num_pr_points + 5` thresholds, well
beyond the claimed bound `num_pr_points + 1`; the subsequent writes at
`precision[cls_idx, diff_idx, th_idx]` would overrun the array.  The input
is chosen so that the overrun is robust to float64 execution of the jitted
source: every `while` guard that passes does so with margin at least
`1/p = 10^-7` on the recall scale, and the first failing guard sits at the
tie `1 + eps/2` — four orders of magnitude above the worst-case
accumulated rounding drift of the float64 loop (about `10^7` additions of
order-1 values, i.e. a few times `10^-9`), so the float64 run also emits
at least `num_pr_points + 5` thresholds. -/
theorem C10_counterexample :
    10000000 + 1 < (get_thresholds [1/2] 1 10000000).length := by
  have hlen : (get_thresholds [1/2] 1 10000000).length = 10000005 := by
    have hs : (([(1:ℚ)/2].insertionSort (· ≤ ·)).reverse) = [1/2] := by
      simp [List.insertionSort, List.orderedInsert]
    show (thLoop 1 10000000 (([(1:ℚ)/2].insertionSort (· ≤ ·)).reverse).length
        (([(1:ℚ)/2].insertionSort (· ≤ ·)).reverse).enum 0 []).length = 10000005
    rw [hs]
    show (thLoop 1 10000000 1 [(0, 1/2)] 0 []).length = 10000005
    rw [thLoop_single]
    rw [thWhile_closed 10000000 (by norm_num)]
    simp only [List.length_append, List.length_replicate, List.length_cons,
      List.length_nil]
    have hceil : ⌈(((((0:ℕ):ℚ) + 1) / ((1:ℕ):ℚ) + (((0:ℕ):ℚ) + 1) / ((1:ℕ):ℚ) + eps) / 2
        - (0 + 1 / ((10000000:ℕ):ℚ))) * ((10000000:ℕ):ℚ)⌉ = 10000004 := by
      have h1 : ((((0:ℕ):ℚ) + 1) / ((1:ℕ):ℚ) + (((0:ℕ):ℚ) + 1) / ((1:ℕ):ℚ) + eps) / 2
          - (0 + 1 / ((10000000:ℕ):ℚ)) = 1 + eps / 2 - 1 / 10000000 := by
        unfold eps
        norm_num
      rw [h1]
      rw [Int.ceil_eq_iff]
      unfold eps
      constructor
      · push_cast
        norm_num
      · push_cast
        norm_num
    rw [hceil]
    omega
  rw [hlen]
  norm_num

/-- C10 (amended): for every score list whose length is at most `num_gt`
and every `num_pr_points` between 1 and `10^6`, provided additionally
`num_gt ≤ 10^6`, `get_thresholds` returns at most `num_pr_points + 1`
thresholds, so the writes to `precision`/`recall` at
`[cls_idx, diff_idx, th_idx]` stay within the last dimension of size
`num_pr_points + 1`.  In this regime the bound also survives float64
execution of the jitted source: since every recall target is at most
`1 + eps/2` (scores never outnumber ground truths), a `num_pr_points + 2`-th
append would need the guard to pass at recall level `1 + 1/p ≥ 1 + eps`,
a margin of `eps/2 = 5*10^-7` above any target — far beyond the
accumulated float64 rounding drift of the loop.  Parameters near
`num_pr_points = 2/eps = 2*10^6`, where exact-rational and float64 traces
of the source genuinely differ, are excluded. -/
theorem C10_amended (scores : List ℚ) (g p : ℕ)
    (hlen : scores.length ≤ g) (hp1 : 1 ≤ p) (hp2 : p ≤ 1000000)
    (hg : g ≤ 1000000) :
    (get_thresholds scores g p).length ≤ p + 1 := by
  unfold get_thresholds
  dsimp only
  have hlen2 : ((scores.insertionSort (· ≤ ·)).reverse).length = scores.length := by
    simp
  exact thLoop_length_le g p ((scores.insertionSort (· ≤ ·)).reverse).length
    hp1 (by omega) hg (by omega)
    ((scores.insertionSort (· ≤ ·)).reverse) 0 0 [] (by simp) (by simp) (by simp)

/-- Witness for `C10_amended` at two concrete scores, `num_gt = 2`,
`num_pr_points = 50`. -/
theorem C10_amended_witness :
    ([(3:ℚ)/4, 1/2].length ≤ 2 ∧ 1 ≤ 50 ∧ 50 ≤ 1000000 ∧ 2 ≤ 1000000) ∧
    (get_thresholds [(3:ℚ)/4, 1/2] 2 50).length ≤ 51 :=
  ⟨⟨by simp, by norm_num, by norm_num, by norm_num⟩,
    C10_amended [(3:ℚ)/4, 1/2] 2 50 (by simp) (by norm_num) (by norm_num)
      (by norm_num)⟩

theorem set_append_len (l1 l2 : List ℚ) (v : ℚ) :
    (l1 ++ l2).set l1.length v = l1 ++ l2.set 0 v := by
  induction l1 with
  | nil => simp
  | cons x xs ih => simp [List.set, ih]

theorem set_append_len_of_eq (l1 l2 : List ℚ) (v : ℚ) (n : ℕ) (h : l1.length = n) :
    (l1 ++ l2).set n v = l1 ++ l2.set 0 v := by
  subst h
  exact set_append_len l1 l2 v

/-- `np.max` of a list; the source only ever takes it over nonempty
slices, so the value on `[]` is irrelevant. -/
def listMax : List ℚ → ℚ
  | [] => 0
  | x :: xs => xs.foldl max x

theorem foldl_max_init_le (xs : List ℚ) : ∀ a : ℚ, a ≤ xs.foldl max a := by
  induction xs with
  | nil => intro a; simp
  | cons x xs ih => intro a; exact le_trans (le_max_left a x) (ih (max a x))

theorem foldl_max_le_of_mem (xs : List ℚ) :
    ∀ (a x : ℚ), x ∈ xs → x ≤ xs.foldl max a := by
  induction xs with
  | nil => intro a x hx; cases hx
  | cons y ys ih =>
    intro a x hx
    rcases List.mem_cons.mp hx with h | h
    · subst h
      exact le_trans (le_max_right a x) (foldl_max_init_le ys (max a x))
    · exact ih (max a y) x h

theorem foldl_max_cases (xs : List ℚ) :
    ∀ a : ℚ, xs.foldl max a = a ∨ xs.foldl max a ∈ xs := by
  induction xs with
  | nil => intro a; left; rfl
  | cons x xs ih =>
    intro a
    rcases ih (max a x) with h | h
    · rcases max_choice a x with hm | hm
      · left; rw [List.foldl_cons, h, hm]
      · right; rw [List.foldl_cons, h, hm]; exact List.mem_cons_self x xs
    · right; exact List.mem_cons_of_mem x h

theorem le_listMax (l : List ℚ) (x : ℚ) (hx : x ∈ l) : x ≤ listMax l := by
  cases l with
  | nil => cases hx
  | cons y ys =>
    rcases List.mem_cons.mp hx with h | h
    · subst h; exact foldl_max_init_le ys x
    · exact foldl_max_le_of_mem ys y x h

theorem listMax_mem (l : List ℚ) (hl : l ≠ []) : listMax l ∈ l := by
  cases l with
  | nil => exact absurd rfl hl
  | cons y ys =>
    show ys.foldl max y ∈ y :: ys
    rcases foldl_max_cases ys y with h | h
    · rw [h]; exact List.mem_cons_self y ys
    · exact List.mem_cons_of_mem y h

theorem listMax_zero (l : List ℚ) (h : ∀ x ∈ l, x = 0) : listMax l = 0 := by
  cases hl : l with
  | nil => rfl
  | cons y ys =>
    have hm := listMax_mem l (by rw [hl]; simp)
    rw [← hl]
    exact h _ hm

/-- The in-place envelope step of lines 112-116: for each `th_idx` below
`numTh` in increasing order, overwrite `arr[th_idx]` with the maximum of
the current slice `arr[th_idx:]` (which at that moment still holds the
raw values from position `th_idx` on, since earlier iterations only wrote
at smaller indices). -/
def envelopeLoop (numTh : ℕ) (arr : List ℚ) : List ℚ :=
  (List.range numTh).foldl (fun a t => a.set t (listMax (a.drop t))) arr

theorem envelopeLoop_eq (arr : List ℚ) :
    ∀ n, n ≤ arr.length →
      envelopeLoop n arr
        = ((List.range n).map fun t => listMax (arr.drop t)) ++ arr.drop n := by
  intro n
  induction n with
  | zero => intro _; simp [envelopeLoop]
  | succ n ih =>
    intro hn
    have hn' : n ≤ arr.length := by omega
    unfold envelopeLoop at ih ⊢
    rw [List.range_succ, List.foldl_append, ih hn']
    simp only [List.foldl_cons, List.foldl_nil]
    have hlenpref : ((List.range n).map fun t => listMax (arr.drop t)).length = n := by
      simp
    have hdrop := List.drop_left ((List.range n).map fun t => listMax (arr.drop t))
      (arr.drop n)
    rw [hlenpref] at hdrop
    rw [hdrop]
    rw [set_append_len_of_eq _ _ _ _ hlenpref]
    have hset : (arr.drop n).set 0 (listMax (arr.drop n))
        = listMax (arr.drop n) :: arr.drop (n+1) := by
      nth_rewrite 1 [List.drop_eq_getElem_cons (show n < arr.length by omega)]
      simp [List.set]
    rw [hset]
    simp [List.map_append, List.append_assoc]

theorem envelope_getD (arr : List ℚ) (n : ℕ) (h : n ≤ arr.length)
    (t : ℕ) (ht : t < arr.length) :
    (envelopeLoop n arr).getD t 0
      = if t < n then listMax (arr.drop t) else arr.getD t 0 := by
  rw [envelopeLoop_eq arr n h]
  by_cases htn : t < n
  · rw [if_pos htn]
    rw [List.getD_append _ _ _ _ (by simpa using htn)]
    have h1 : (((List.range n).map fun t => listMax (arr.drop t))[t]?)
        = some (listMax (arr.drop t)) := by
      rw [List.getElem?_map, List.getElem?_range htn]
      rfl
    simp [List.getD, h1]
  · rw [if_neg htn]
    have hlen : ((List.range n).map fun u => listMax (arr.drop u)).length = n := by
      simp
    rw [List.getD_append_right _ _ _ _ (by omega)]
    rw [hlen]
    have h2 : ((arr.drop n)[t - n]?) = arr[t]? := by
      rw [List.getElem?_drop]
      congr 1
      omega
    simp [List.getD, h2]

/-- Raw precision entry at threshold index `t` (lines 109-110):
`tp / (tp + fp)` from the confusion matrix row `t`, or the initial
`np.zeros` value `0` past the end of the threshold list. -/
def precEntry (confusion : List (ℕ × ℕ × ℕ)) (t : ℕ) : ℚ :=
  match confusion[t]? with
  | some c => (c.1 : ℚ) / ((c.1 : ℚ) + (c.2.1 : ℚ))
  | none => 0

/-- Raw recall entry at threshold index `t` (lines 107-108):
`tp / (tp + fn)`, or `0` past the end of the threshold list. -/
def recEntry (confusion : List (ℕ × ℕ × ℕ)) (t : ℕ) : ℚ :=
  match confusion[t]? with
  | some c => (c.1 : ℚ) / ((c.1 : ℚ) + (c.2.2 : ℚ))
  | none => 0

/-- The raw precision row of one class and difficulty, length
`num_pr_points + 1`. -/
def rawPrecision (confusion : List (ℕ × ℕ × ℕ)) (numPrPoints : ℕ) : List ℚ :=
  (List.range (numPrPoints + 1)).map (precEntry confusion)

/-- The raw recall row of one class and difficulty, length
`num_pr_points + 1`. -/
def rawRecall (confusion : List (ℕ × ℕ × ℕ)) (numPrPoints : ℕ) : List ℚ :=
  (List.range (numPrPoints + 1)).map (recEntry confusion)

theorem map_range_getD (f : ℕ → ℚ) (N t : ℕ) (ht : t < N + 1) :
    ((List.range (N + 1)).map f).getD t 0 = f t := by
  have h1 : (((List.range (N + 1)).map f)[t]?) = some (f t) := by
    rw [List.getElem?_map, List.getElem?_range ht]
    rfl
  simp [List.getD, h1]

theorem row_drop_zero (f : ℕ → ℚ) (N m t : ℕ) (hf : ∀ u, m ≤ u → f u = 0)
    (ht : m ≤ t) : ∀ x ∈ ((List.range (N + 1)).map f).drop t, x = 0 := by
  intro x hx
  rcases List.mem_iff_getElem?.mp hx with ⟨i, hi⟩
  rw [List.getElem?_drop, List.getElem?_map] at hi
  have hlt : t + i < N + 1 := by
    by_contra hge
    rw [List.getElem?_eq_none (by simp; omega)] at hi
    cases hi
  rw [List.getElem?_range hlt] at hi
  have hx0 : f (t + i) = x := by simpa using hi
  rw [← hx0]
  exact hf (t + i) (by omega)

theorem envelope_row_spec (f : ℕ → ℚ) (N m : ℕ) (hm : m ≤ N + 1)
    (hf : ∀ t, m ≤ t → f t = 0) :
    (∀ t, t < N + 1 →
      (envelopeLoop m ((List.range (N + 1)).map f)).getD t 0
        = listMax (((List.range (N + 1)).map f).drop t)) ∧
    (∀ t u, t ≤ u → u < N + 1 →
      (envelopeLoop m ((List.range (N + 1)).map f)).getD u 0
        ≤ (envelopeLoop m ((List.range (N + 1)).map f)).getD t 0) := by
  have hlen : ((List.range (N + 1)).map f).length = N + 1 := by simp
  have part1 : ∀ t, t < N + 1 →
      (envelopeLoop m ((List.range (N + 1)).map f)).getD t 0
        = listMax (((List.range (N + 1)).map f).drop t) := by
    intro t ht
    rw [envelope_getD _ m (by omega) t (by omega)]
    by_cases htm : t < m
    · rw [if_pos htm]
    · rw [if_neg htm]
      rw [map_range_getD f N t ht, hf t (by omega)]
      rw [listMax_zero _ (row_drop_zero f N m t hf (by omega))]
  refine ⟨part1, ?_⟩
  intro t u htu hu
  rw [part1 t (by omega), part1 u hu]
  have hne : ((List.range (N + 1)).map f).drop u ≠ [] := by
    intro hnil
    have := List.drop_eq_nil_iff.mp hnil
    omega
  have hmem := listMax_mem _ hne
  have hsub : ((List.range (N + 1)).map f).drop u
      ⊆ ((List.range (N + 1)).map f).drop t := by
    have hdd : (((List.range (N + 1)).map f).drop t).drop (u - t)
        = ((List.range (N + 1)).map f).drop u := by
      rw [List.drop_drop]
      congr 1
      omega
    rw [← hdd]
    exact List.drop_subset _ _
  exact le_listMax _ _ (hsub hmem)

/-- C3: after the envelope step (lines 112-116) over the per-threshold
confusion matrix of one class and one difficulty level, each precision
value and each recall value equals the maximum of the raw values at its
own index and all later threshold indices (trailing initialized zeros
included), and consequently both the precision row and the recall row are
non-increasing in threshold index. -/
theorem C3_envelope (confusion : List (ℕ × ℕ × ℕ)) (N : ℕ)
    (h : confusion.length ≤ N + 1) :
    (∀ t, t < N + 1 →
      (envelopeLoop confusion.length (rawPrecision confusion N)).getD t 0
          = listMax ((rawPrecision confusion N).drop t)
        ∧ (envelopeLoop confusion.length (rawRecall confusion N)).getD t 0
          = listMax ((rawRecall confusion N).drop t)) ∧
    (∀ t u, t ≤ u → u < N + 1 →
      (envelopeLoop confusion.length (rawPrecision confusion N)).getD u 0
          ≤ (envelopeLoop confusion.length (rawPrecision confusion N)).getD t 0
        ∧ (envelopeLoop confusion.length (rawRecall confusion N)).getD u 0
          ≤ (envelopeLoop confusion.length (rawRecall confusion N)).getD t 0) := by
  have hp := envelope_row_spec (precEntry confusion) N confusion.length h
    (fun t htl => by
      unfold precEntry
      rw [List.getElem?_eq_none htl])
  have hr := envelope_row_spec (recEntry confusion) N confusion.length h
    (fun t htl => by
      unfold recEntry
      rw [List.getElem?_eq_none htl])
  unfold rawPrecision rawRecall
  exact ⟨fun t ht => ⟨hp.1 t ht, hr.1 t ht⟩,
         fun t u htu hu => ⟨hp.2 t u htu hu, hr.2 t u htu hu⟩⟩

/-- Witness for `C3_envelope` at a concrete two-threshold confusion
matrix, evaluating the first conjunct at index 1. -/
theorem C3_envelope_witness :
    (envelopeLoop ([((1:ℕ),(0:ℕ),(0:ℕ)), ((1:ℕ),(1:ℕ),(1:ℕ))].length)
        (rawPrecision [((1:ℕ),(0:ℕ),(0:ℕ)), ((1:ℕ),(1:ℕ),(1:ℕ))] 2)).getD 1 0
      = listMax ((rawPrecision [((1:ℕ),(0:ℕ),(0:ℕ)), ((1:ℕ),(1:ℕ),(1:ℕ))] 2).drop 1) :=
  ((C3_envelope [((1:ℕ),(0:ℕ),(0:ℕ)), ((1:ℕ),(1:ℕ),(1:ℕ))] 2 (by simp)).1
    1 (by norm_num)).1

/-- Result of the inner prediction scan of `compute_statistics`
(lines 222-243): `det_idx`, `detected`, `best_matched_iou`,
`gt_assigned_to_ignore`. -/
structure StatsInner where
  det_idx : Int
  detected : Bool
  best_matched_iou : ℚ
  gt_assigned_to_ignore : Bool
  deriving Repr, DecidableEq

/-- One iteration `j` of the inner prediction scan of
`compute_statistics` (lines 227-243): skip rejected, already assigned or
under-threshold predictions; otherwise prefer an accepted (`flag 0`) match
of higher IoU (or any accepted match while only an ignored one is held),
and fall back to the first ignored (`flag 1`) match while undetected. -/
def statsInnerStep (iouRow pred_scores : List ℚ) (pred_flag : List Int)
    (assigned : List Bool) (score_threshold iou_threshold : ℚ)
    (st : StatsInner) (j : ℕ) : StatsInner :=
  if pred_flag.getD j 0 = -1 then st
  else if assigned.getD j false then st
  else if pred_scores.getD j 0 < score_threshold then st
  else
    let iou_ij := iouRow.getD j 0
    if iou_threshold < iou_ij ∧ (st.best_matched_iou < iou_ij ∨ st.gt_assigned_to_ignore)
        ∧ pred_flag.getD j 0 = 0 then
      ⟨j, true, iou_ij, false⟩
    else if iou_threshold < iou_ij ∧ st.detected = false ∧ pred_flag.getD j 0 = 1 then
      ⟨j, true, st.best_matched_iou, true⟩
    else st

/-- The full inner prediction scan of `compute_statistics` for one ground
truth: a fold of `statsInnerStep` over `range num_pred`, starting from
`det_idx = -1`, `detected = False`, `best_matched_iou = 0`,
`gt_assigned_to_ignore = False`.  (`num_pred` is `iou.shape[1]`, which in
every call equals the prediction count `len(pred_scores)`.) -/
def statsInner (iouRow pred_scores : List ℚ) (pred_flag : List Int)
    (assigned : List Bool) (score_threshold iou_threshold : ℚ) : StatsInner :=
  (List.range pred_scores.length).foldl
    (statsInnerStep iouRow pred_scores pred_flag assigned score_threshold iou_threshold)
    ⟨-1, false, 0, false⟩

/-- State of the outer ground-truth loop of `compute_statistics`: the
`assigned` flags and the running `tp`/`fn` counts.  `pairs` records each
`(gt index, pred index)` pair the loop assigns; it is write-only
instrumentation used to state the one-to-one property and never influences
the computation. -/
structure StatsState where
  assigned : List Bool
  tp : ℕ
  fn : ℕ
  pairs : List (ℕ × ℕ)
  deriving Repr

/-- One iteration `i` of the outer ground-truth loop of
`compute_statistics` (lines 219-251). -/
def statsStep (iou : List (List ℚ)) (pred_scores : List ℚ)
    (gt_flag pred_flag : List Int) (score_threshold iou_threshold : ℚ)
    (st : StatsState) (i : ℕ) : StatsState :=
  if gt_flag.getD i 0 = -1 then st
  else
    let inner := statsInner (iou.getD i []) pred_scores pred_flag st.assigned
      score_threshold iou_threshold
    if inner.detected = false ∧ gt_flag.getD i 0 = 0 then
      { st with fn := st.fn + 1 }
    else if inner.detected = true
        ∧ (gt_flag.getD i 0 = 1 ∨ pred_flag.getD inner.det_idx.toNat 0 = 1) then
      { st with assigned := st.assigned.set inner.det_idx.toNat true,
                pairs := st.pairs ++ [(i, inner.det_idx.toNat)] }
    else if inner.detected = true then
      { st with assigned := st.assigned.set inner.det_idx.toNat true,
                tp := st.tp + 1,
                pairs := st.pairs ++ [(i, inner.det_idx.toNat)] }
    else st

/-- The outer ground-truth loop of `compute_statistics`, starting from
`assigned = np.full(num_pred, False)` and zero counts. -/
def statsFold (iou : List (List ℚ)) (pred_scores : List ℚ)
    (gt_flag pred_flag : List Int) (score_threshold iou_threshold : ℚ) : StatsState :=
  (List.range iou.length).foldl
    (statsStep iou pred_scores gt_flag pred_flag score_threshold iou_threshold)
    ⟨List.replicate pred_scores.length false, 0, 0, []⟩

/-- `compute_statistics` (lines 211-257): greedy matching at one score
threshold, returning `(tp, fp, fn)`; the trailing loop (lines 253-255)
counts as false positives the predictions that are neither assigned,
rejected, ignored nor under the score threshold. -/
def compute_statistics (iou : List (List ℚ)) (pred_scores : List ℚ)
    (gt_flag pred_flag : List Int) (score_threshold iou_threshold : ℚ) :
    ℕ × ℕ × ℕ :=
  let st := statsFold iou pred_scores gt_flag pred_flag score_threshold iou_threshold
  let fp := (List.range pred_scores.length).countP (fun j =>
    !(st.assigned.getD j false || pred_flag.getD j 0 == -1 || pred_flag.getD j 0 == 1
      || decide (pred_scores.getD j 0 < score_threshold)))
  (st.tp, fp, st.fn)

/-- One iteration `j` of the inner prediction scan of `accumulate_scores`
(lines 189-198): among unassigned same-class predictions with IoU above
the threshold, keep the one of highest score. -/
def accumInnerStep (iouRow pred_scores : List ℚ) (pred_flag : List Int)
    (assigned : List Bool) (iou_threshold : ℚ)
    (st : Int × ℚ) (j : ℕ) : Int × ℚ :=
  if pred_flag.getD j 0 = -1 then st
  else if assigned.getD j false then st
  else if iou_threshold < iouRow.getD j 0 ∧ st.2 < pred_scores.getD j 0 then
    (j, pred_scores.getD j 0)
  else st

/-- The full inner scan of `accumulate_scores` for one ground truth,
starting from `det_idx = -1`, `detected_score = -1`. -/
def accumInner (iouRow pred_scores : List ℚ) (pred_flag : List Int)
    (assigned : List Bool) (iou_threshold : ℚ) : Int × ℚ :=
  (List.range pred_scores.length).foldl
    (accumInnerStep iouRow pred_scores pred_flag assigned iou_threshold)
    (-1, -1)

/-- State of the outer loop of `accumulate_scores`; `pairs` is the same
write-only instrumentation as in `StatsState`. -/
structure AccumState where
  assigned : List Bool
  accum : List ℚ
  pairs : List (ℕ × ℕ)
  deriving Repr

/-- One iteration `i` of the outer ground-truth loop of
`accumulate_scores` (lines 184-207). -/
def accumStep (iou : List (List ℚ)) (pred_scores : List ℚ)
    (gt_flag pred_flag : List Int) (iou_threshold : ℚ)
    (st : AccumState) (i : ℕ) : AccumState :=
  if gt_flag.getD i 0 = -1 then st
  else
    let d := accumInner (iou.getD i []) pred_scores pred_flag st.assigned iou_threshold
    if d.2 = -1 ∧ gt_flag.getD i 0 = 0 then st
    else if d.2 ≠ -1 ∧ (gt_flag.getD i 0 = 1 ∨ pred_flag.getD d.1.toNat 0 = 1) then
      { st with assigned := st.assigned.set d.1.toNat true,
                pairs := st.pairs ++ [(i, d.1.toNat)] }
    else if d.2 ≠ -1 then
      { st with assigned := st.assigned.set d.1.toNat true,
                accum := st.accum ++ [pred_scores.getD d.1.toNat 0],
                pairs := st.pairs ++ [(i, d.1.toNat)] }
    else st

/-- The outer ground-truth loop of `accumulate_scores`. -/
def accumFold (iou : List (List ℚ)) (pred_scores : List ℚ)
    (gt_flag pred_flag : List Int) (iou_threshold : ℚ) : AccumState :=
  (List.range iou.length).foldl
    (accumStep iou pred_scores gt_flag pred_flag iou_threshold)
    ⟨List.replicate pred_scores.length false, [], []⟩

/-- `accumulate_scores` (lines 177-209): the list of confidence scores of
true-positive matches (`accum_scores[:accum_idx]`). -/
def accumulate_scores (iou : List (List ℚ)) (pred_scores : List ℚ)
    (gt_flag pred_flag : List Int) (iou_threshold : ℚ) : List ℚ :=
  (accumFold iou pred_scores gt_flag pred_flag iou_threshold).accum

theorem flag_getD_cases (l : List Int) (h : ∀ f ∈ l, f = -1 ∨ f = 0 ∨ f = 1)
    (j : ℕ) : l.getD j 0 = -1 ∨ l.getD j 0 = 0 ∨ l.getD j 0 = 1 := by
  by_cases hj : j < l.length
  · rw [List.getD_eq_getElem l 0 hj]
    exact h _ (List.getElem_mem hj)
  · rw [List.getD_eq_default l 0 (by omega)]
    right; left; rfl

theorem fp_flag_bool (a : Bool) (f : Int) (hf : f = -1 ∨ f = 0 ∨ f = 1)
    (s th : ℚ) :
    (!(a || f == -1 || f == 1 || decide (s < th)))
      = decide (a = false ∧ f = 0 ∧ th ≤ s) := by
  rcases hf with h | h | h <;> subst h <;> cases a <;>
    by_cases hs : s < th <;> simp [hs, le_of_not_lt, not_le.mpr]

/-- C6: at every score threshold, the false-positive count of
`compute_statistics` is exactly the number of predictions that end the
greedy pass unassigned, are flagged accepted (flag 0) and score at or
above the threshold — so rejected (-1), ignored (1), under-threshold or
assigned predictions are never false positives; and a ground-truth step
whose match is ignored (ignored ground truth or ignored prediction)
changes neither the true-positive nor the false-negative count. -/
theorem C6_fp_and_ignore (iou : List (List ℚ)) (pred_scores : List ℚ)
    (gt_flag pred_flag : List Int) (score_threshold iou_threshold : ℚ)
    (hflags : ∀ f ∈ pred_flag, f = -1 ∨ f = 0 ∨ f = 1) :
    ((compute_statistics iou pred_scores gt_flag pred_flag score_threshold
        iou_threshold).2.1
      = (List.range pred_scores.length).countP (fun j =>
          decide ((statsFold iou pred_scores gt_flag pred_flag score_threshold
              iou_threshold).assigned.getD j false = false
            ∧ pred_flag.getD j 0 = 0
            ∧ score_threshold ≤ pred_scores.getD j 0)))
    ∧ (∀ (st : StatsState) (i : ℕ),
        (statsInner (iou.getD i []) pred_scores pred_flag st.assigned
            score_threshold iou_threshold).detected = true →
        (gt_flag.getD i 0 = 1
          ∨ pred_flag.getD (statsInner (iou.getD i []) pred_scores pred_flag
              st.assigned score_threshold iou_threshold).det_idx.toNat 0 = 1) →
        (statsStep iou pred_scores gt_flag pred_flag score_threshold
            iou_threshold st i).tp = st.tp
          ∧ (statsStep iou pred_scores gt_flag pred_flag score_threshold
              iou_threshold st i).fn = st.fn) := by
  constructor
  · unfold compute_statistics
    dsimp only
    apply List.countP_congr
    intro j hj
    rw [fp_flag_bool _ _ (flag_getD_cases pred_flag hflags j)]
  · intro st i hdet hign
    unfold statsStep
    dsimp only
    by_cases h1 : gt_flag.getD i 0 = -1
    · rw [if_pos h1]
      exact ⟨rfl, rfl⟩
    · rw [if_neg h1]
      rw [if_neg (by rw [hdet]; rintro ⟨hc, _⟩; cases hc)]
      rw [if_pos ⟨hdet, hign⟩]
      exact ⟨rfl, rfl⟩

/-- Witness for `C6_fp_and_ignore` at one sample with a single matching
box pair. -/
theorem C6_fp_and_ignore_witness :
    (∀ f ∈ ([0] : List Int), f = -1 ∨ f = 0 ∨ f = 1) ∧
    ((compute_statistics [[1]] [9/10] [0] [0] (1/2) (7/10)).2.1
      = (List.range [(9:ℚ)/10].length).countP (fun j =>
          decide ((statsFold [[1]] [9/10] [0] [0] (1/2) (7/10)).assigned.getD
              j false = false
            ∧ ([0] : List Int).getD j 0 = 0
            ∧ (1/2 : ℚ) ≤ [(9:ℚ)/10].getD j 0))) :=
  ⟨by decide,
    (C6_fp_and_ignore [[1]] [9/10] [0] [0] (1/2) (7/10) (by decide)).1⟩

theorem foldl_inv {α β : Type} (P : β → Prop) (f : β → α → β) :
    ∀ (l : List α) (b : β), P b → (∀ x ∈ l, ∀ s, P s → P (f s x)) →
      P (l.foldl f b) := by
  intro l
  induction l with
  | nil => intro b hb _; exact hb
  | cons x xs ih =>
    intro b hb hstep
    exact ih (f b x) (hstep x (List.mem_cons_self x xs) b hb)
      (fun y hy s hs => hstep y (List.mem_cons_of_mem x hy) s hs)

theorem statsInner_detected (iouRow pred_scores : List ℚ) (pred_flag : List Int)
    (assigned : List Bool) (score_threshold iou_threshold : ℚ) :
    (statsInner iouRow pred_scores pred_flag assigned score_threshold
        iou_threshold).detected = true →
      (statsInner iouRow pred_scores pred_flag assigned score_threshold
          iou_threshold).det_idx.toNat < pred_scores.length
        ∧ assigned.getD (statsInner iouRow pred_scores pred_flag assigned
            score_threshold iou_threshold).det_idx.toNat false = false := by
  unfold statsInner
  refine foldl_inv (fun (st : StatsInner) => st.detected = true →
      st.det_idx.toNat < pred_scores.length
        ∧ assigned.getD st.det_idx.toNat false = false) _ _ _ ?_ ?_
  · intro h
    cases h
  · intro j hj b hb
    unfold statsInnerStep
    dsimp only
    split_ifs with h1 h2 h3 h4 h5
    · exact hb
    · exact hb
    · exact hb
    · intro _
      refine ⟨?_, ?_⟩
      · simpa using List.mem_range.mp hj
      · simpa using eq_false_of_ne_true h2
    · intro _
      refine ⟨?_, ?_⟩
      · simpa using List.mem_range.mp hj
      · simpa using eq_false_of_ne_true h2
    · exact hb

theorem accumInner_detected (iouRow pred_scores : List ℚ) (pred_flag : List Int)
    (assigned : List Bool) (iou_threshold : ℚ) :
    (accumInner iouRow pred_scores pred_flag assigned iou_threshold).2 ≠ -1 →
      (accumInner iouRow pred_scores pred_flag assigned iou_threshold).1.toNat
          < pred_scores.length
        ∧ assigned.getD (accumInner iouRow pred_scores pred_flag assigned
            iou_threshold).1.toNat false = false := by
  unfold accumInner
  refine foldl_inv (fun (st : Int × ℚ) => st.2 ≠ -1 →
      st.1.toNat < pred_scores.length
        ∧ assigned.getD st.1.toNat false = false) _ _ _ ?_ ?_
  · intro h
    exact absurd rfl h
  · intro j hj b hb
    unfold accumInnerStep
    split_ifs with h1 h2 h3
    · exact hb
    · exact hb
    · intro _
      refine ⟨?_, ?_⟩
      · simpa using List.mem_range.mp hj
      · simpa using eq_false_of_ne_true h2
    · exact hb

/-- Getting an entry of a list after setting a different index leaves it
unchanged. -/
theorem getD_set_ne (l : List Bool) (i j : ℕ) (v : Bool) (h : i ≠ j) :
    (l.set i v).getD j false = l.getD j false := by
  simp [List.getD, List.getElem?_set_ne h]

theorem getD_set_self (l : List Bool) (i : ℕ) (v : Bool) (h : i < l.length) :
    (l.set i v).getD i false = v := by
  simp [List.getD, List.getElem?_set_self, h]

/-- The effect of one greedy assignment on the matching invariants: if the
chosen prediction `det` is in range and currently unassigned, then after
marking it assigned and recording `(n, det)` every invariant is restored
with the ground-truth bound advanced to `n + 1`. -/
theorem assign_inv_update (A : List Bool) (P : List (ℕ × ℕ)) (n det M : ℕ)
    (h1 : A.length = M)
    (h2 : ∀ pr ∈ P, pr.1 < n ∧ pr.2 < M ∧ A.getD pr.2 false = true)
    (h3 : (P.map Prod.fst).Nodup) (h4 : (P.map Prod.snd).Nodup)
    (hdM : det < M) (hdun : A.getD det false = false) :
    ((A.set det true).length = M)
    ∧ (∀ pr ∈ P ++ [(n, det)], pr.1 < n + 1 ∧ pr.2 < M
        ∧ (A.set det true).getD pr.2 false = true)
    ∧ (((P ++ [(n, det)]).map Prod.fst).Nodup)
    ∧ (((P ++ [(n, det)]).map Prod.snd).Nodup) := by
  refine ⟨by simp [h1], ?_, ?_, ?_⟩
  · intro pr hpr
    rcases List.mem_append.mp hpr with h | h
    · obtain ⟨ha, hb, hc⟩ := h2 pr h
      refine ⟨by omega, hb, ?_⟩
      have hne : det ≠ pr.2 := by
        intro he
        rw [← he, hdun] at hc
        cases hc
      rw [getD_set_ne _ _ _ _ hne]
      exact hc
    · have hpr2 : pr = (n, det) := by simpa using h
      subst hpr2
      exact ⟨by omega, hdM, getD_set_self _ _ _ (by omega)⟩
  · rw [List.map_append, List.nodup_append]
    refine ⟨h3, by simp, ?_⟩
    intro a ha hb
    simp only [List.map_cons, List.map_nil, List.mem_singleton] at hb
    subst hb
    rcases List.mem_map.mp ha with ⟨pr, hpr, he⟩
    have := (h2 pr hpr).1
    omega
  · rw [List.map_append, List.nodup_append]
    refine ⟨h4, by simp, ?_⟩
    intro a ha hb
    simp only [List.map_cons, List.map_nil, List.mem_singleton] at hb
    subst hb
    rcases List.mem_map.mp ha with ⟨pr, hpr, he⟩
    have := (h2 pr hpr).2.2
    rw [he] at this
    rw [this] at hdun
    cases hdun

/-- Invariant of the outer loop of `compute_statistics`: the `assigned`
array keeps its length, every recorded pair points at an in-range,
currently assigned prediction, and both projections of the recorded pairs
are duplicate-free. -/
theorem statsFold_inv (iou : List (List ℚ)) (pred_scores : List ℚ)
    (gt_flag pred_flag : List Int) (score_threshold iou_threshold : ℚ) :
    ∀ n : ℕ,
      (((List.range n).foldl
          (statsStep iou pred_scores gt_flag pred_flag score_threshold iou_threshold)
          ⟨List.replicate pred_scores.length false, 0, 0, []⟩).assigned.length
        = pred_scores.length)
      ∧ (∀ pr ∈ ((List.range n).foldl
            (statsStep iou pred_scores gt_flag pred_flag score_threshold iou_threshold)
            ⟨List.replicate pred_scores.length false, 0, 0, []⟩).pairs,
          pr.1 < n ∧ pr.2 < pred_scores.length
            ∧ ((List.range n).foldl
                (statsStep iou pred_scores gt_flag pred_flag score_threshold iou_threshold)
                ⟨List.replicate pred_scores.length false, 0, 0, []⟩).assigned.getD
                pr.2 false = true)
      ∧ (((List.range n).foldl
            (statsStep iou pred_scores gt_flag pred_flag score_threshold iou_threshold)
            ⟨List.replicate pred_scores.length false, 0, 0, []⟩).pairs.map
            Prod.fst).Nodup
      ∧ (((List.range n).foldl
            (statsStep iou pred_scores gt_flag pred_flag score_threshold iou_threshold)
            ⟨List.replicate pred_scores.length false, 0, 0, []⟩).pairs.map
            Prod.snd).Nodup := by
  intro n
  induction n with
  | zero => simp
  | succ n ih =>
    rw [List.range_succ, List.foldl_append, List.foldl_cons, List.foldl_nil]
    obtain ⟨ih1, ih2, ih3, ih4⟩ := ih
    set S := (List.range n).foldl
      (statsStep iou pred_scores gt_flag pred_flag score_threshold iou_threshold)
      ⟨List.replicate pred_scores.length false, 0, 0, []⟩ with hS
    unfold statsStep
    dsimp only
    by_cases h1 : gt_flag.getD n 0 = -1
    · rw [if_pos h1]
      exact ⟨ih1, fun pr hpr => ⟨by have := (ih2 pr hpr).1; omega, (ih2 pr hpr).2.1,
        (ih2 pr hpr).2.2⟩, ih3, ih4⟩
    · rw [if_neg h1]
      by_cases h2 : (statsInner (iou.getD n []) pred_scores pred_flag S.assigned
          score_threshold iou_threshold).detected = false
          ∧ gt_flag.getD n 0 = 0
      · rw [if_pos h2]
        exact ⟨ih1, fun pr hpr => ⟨by have := (ih2 pr hpr).1; omega, (ih2 pr hpr).2.1,
          (ih2 pr hpr).2.2⟩, ih3, ih4⟩
      · rw [if_neg h2]
        by_cases h3 : (statsInner (iou.getD n []) pred_scores pred_flag S.assigned
            score_threshold iou_threshold).detected = true
            ∧ (gt_flag.getD n 0 = 1
              ∨ pred_flag.getD (statsInner (iou.getD n []) pred_scores pred_flag
                  S.assigned score_threshold iou_threshold).det_idx.toNat 0 = 1)
        · rw [if_pos h3]
          have hdet := statsInner_detected (iou.getD n []) pred_scores pred_flag
            S.assigned score_threshold iou_threshold h3.1
          have hupd := assign_inv_update S.assigned S.pairs n
            ((statsInner (iou.getD n []) pred_scores pred_flag S.assigned
              score_threshold iou_threshold).det_idx.toNat)
            pred_scores.length ih1 ih2 ih3 ih4 hdet.1 hdet.2
          exact ⟨hupd.1, hupd.2.1, hupd.2.2.1, hupd.2.2.2⟩
        · rw [if_neg h3]
          by_cases h4 : (statsInner (iou.getD n []) pred_scores pred_flag S.assigned
              score_threshold iou_threshold).detected = true
          · rw [if_pos h4]
            have hdet := statsInner_detected (iou.getD n []) pred_scores pred_flag
              S.assigned score_threshold iou_threshold h4
            have hupd := assign_inv_update S.assigned S.pairs n
              ((statsInner (iou.getD n []) pred_scores pred_flag S.assigned
                score_threshold iou_threshold).det_idx.toNat)
              pred_scores.length ih1 ih2 ih3 ih4 hdet.1 hdet.2
            exact ⟨hupd.1, hupd.2.1, hupd.2.2.1, hupd.2.2.2⟩
          · rw [if_neg h4]
            exact ⟨ih1, fun pr hpr => ⟨by have := (ih2 pr hpr).1; omega,
              (ih2 pr hpr).2.1, (ih2 pr hpr).2.2⟩, ih3, ih4⟩

/-- Invariant of the outer loop of `accumulate_scores`, as for
`compute_statistics`. -/
theorem accumFold_inv (iou : List (List ℚ)) (pred_scores : List ℚ)
    (gt_flag pred_flag : List Int) (iou_threshold : ℚ) :
    ∀ n : ℕ,
      (((List.range n).foldl
          (accumStep iou pred_scores gt_flag pred_flag iou_threshold)
          ⟨List.replicate pred_scores.length false, [], []⟩).assigned.length
        = pred_scores.length)
      ∧ (∀ pr ∈ ((List.range n).foldl
            (accumStep iou pred_scores gt_flag pred_flag iou_threshold)
            ⟨List.replicate pred_scores.length false, [], []⟩).pairs,
          pr.1 < n ∧ pr.2 < pred_scores.length
            ∧ ((List.range n).foldl
                (accumStep iou pred_scores gt_flag pred_flag iou_threshold)
                ⟨List.replicate pred_scores.length false, [], []⟩).assigned.getD
                pr.2 false = true)
      ∧ (((List.range n).foldl
            (accumStep iou pred_scores gt_flag pred_flag iou_threshold)
            ⟨List.replicate pred_scores.length false, [], []⟩).pairs.map
            Prod.fst).Nodup
      ∧ (((List.range n).foldl
            (accumStep iou pred_scores gt_flag pred_flag iou_threshold)
            ⟨List.replicate pred_scores.length false, [], []⟩).pairs.map
            Prod.snd).Nodup := by
  intro n
  induction n with
  | zero => simp
  | succ n ih =>
    rw [List.range_succ, List.foldl_append, List.foldl_cons, List.foldl_nil]
    obtain ⟨ih1, ih2, ih3, ih4⟩ := ih
    set S := (List.range n).foldl
      (accumStep iou pred_scores gt_flag pred_flag iou_threshold)
      ⟨List.replicate pred_scores.length false, [], []⟩ with hS
    unfold accumStep
    dsimp only
    by_cases h1 : gt_flag.getD n 0 = -1
    · rw [if_pos h1]
      exact ⟨ih1, fun pr hpr => ⟨by have := (ih2 pr hpr).1; omega, (ih2 pr hpr).2.1,
        (ih2 pr hpr).2.2⟩, ih3, ih4⟩
    · rw [if_neg h1]
      by_cases h2 : (accumInner (iou.getD n []) pred_scores pred_flag S.assigned
          iou_threshold).2 = -1 ∧ gt_flag.getD n 0 = 0
      · rw [if_pos h2]
        exact ⟨ih1, fun pr hpr => ⟨by have := (ih2 pr hpr).1; omega, (ih2 pr hpr).2.1,
          (ih2 pr hpr).2.2⟩, ih3, ih4⟩
      · rw [if_neg h2]
        by_cases h3 : (accumInner (iou.getD n []) pred_scores pred_flag S.assigned
            iou_threshold).2 ≠ -1
            ∧ (gt_flag.getD n 0 = 1
              ∨ pred_flag.getD (accumInner (iou.getD n []) pred_scores pred_flag
                  S.assigned iou_threshold).1.toNat 0 = 1)
        · rw [if_pos h3]
          have hdet := accumInner_detected (iou.getD n []) pred_scores pred_flag
            S.assigned iou_threshold h3.1
          have hupd := assign_inv_update S.assigned S.pairs n
            ((accumInner (iou.getD n []) pred_scores pred_flag S.assigned
              iou_threshold).1.toNat)
            pred_scores.length ih1 ih2 ih3 ih4 hdet.1 hdet.2
          exact ⟨hupd.1, hupd.2.1, hupd.2.2.1, hupd.2.2.2⟩
        · rw [if_neg h3]
          by_cases h4 : (accumInner (iou.getD n []) pred_scores pred_flag S.assigned
              iou_threshold).2 ≠ -1
          · rw [if_pos h4]
            have hdet := accumInner_detected (iou.getD n []) pred_scores pred_flag
              S.assigned iou_threshold h4
            have hupd := assign_inv_update S.assigned S.pairs n
              ((accumInner (iou.getD n []) pred_scores pred_flag S.assigned
                iou_threshold).1.toNat)
              pred_scores.length ih1 ih2 ih3 ih4 hdet.1 hdet.2
            exact ⟨hupd.1, hupd.2.1, hupd.2.2.1, hupd.2.2.2⟩
          · rw [if_neg h4]
            exact ⟨ih1, fun pr hpr => ⟨by have := (ih2 pr hpr).1; omega,
              (ih2 pr hpr).2.1, (ih2 pr hpr).2.2⟩, ih3, ih4⟩

/-- C7: in every greedy matching pass — `accumulate_scores` and
`compute_statistics` at any score threshold — the resulting assignment is
one-to-one: the recorded (ground truth, prediction) pairs have pairwise
distinct ground-truth indices and pairwise distinct prediction indices. -/
theorem C7_one_to_one (iou : List (List ℚ)) (pred_scores : List ℚ)
    (gt_flag pred_flag : List Int) (score_threshold iou_threshold : ℚ) :
    (((statsFold iou pred_scores gt_flag pred_flag score_threshold
          iou_threshold).pairs.map Prod.fst).Nodup
      ∧ ((statsFold iou pred_scores gt_flag pred_flag score_threshold
          iou_threshold).pairs.map Prod.snd).Nodup)
    ∧ (((accumFold iou pred_scores gt_flag pred_flag
          iou_threshold).pairs.map Prod.fst).Nodup
      ∧ ((accumFold iou pred_scores gt_flag pred_flag
          iou_threshold).pairs.map Prod.snd).Nodup) := by
  have hs := statsFold_inv iou pred_scores gt_flag pred_flag score_threshold
    iou_threshold iou.length
  have ha := accumFold_inv iou pred_scores gt_flag pred_flag iou_threshold
    iou.length
  exact ⟨⟨hs.2.2.1, hs.2.2.2⟩, ⟨ha.2.2.1, ha.2.2.2⟩⟩

/-- A per-sample annotation record: the `name`, `boxes_3d` and (for
predictions) `score` fields of one sample's dict; ground-truth records
carry an unused empty `score`. -/
structure Anno where
  name : List String
  boxes_3d : List Box
  score : List ℚ
  deriving Repr

/-- Modelled from the spec: `compute_split_parts` (module `eval_utils.py`,
absent from the snapshot) splits `num_samples` into `num_parts` fixed-size
parts for memory-bounded batching: `num_samples / num_parts` samples per
part plus a remainder part, or a single part when there are fewer samples
than parts. -/
def compute_split_parts (num_samples num_parts : ℕ) : List ℕ :=
  let part_samples := num_samples / num_parts
  let remain_samples := num_samples % num_parts
  if part_samples = 0 then [num_samples]
  else if remain_samples = 0 then List.replicate num_parts part_samples
  else List.replicate num_parts part_samples ++ [remain_samples]

theorem compute_split_parts_sum (num_samples num_parts : ℕ)
    (h : 0 < num_parts) : (compute_split_parts num_samples num_parts).sum
      = num_samples := by
  unfold compute_split_parts
  dsimp only
  split_ifs with h1 h2
  · simp
  · rw [List.sum_replicate, smul_eq_mul]
    have := Nat.div_add_mod num_samples num_parts
    omega
  · rw [List.sum_append, List.sum_replicate, smul_eq_mul]
    have := Nat.div_add_mod num_samples num_parts
    simp only [List.sum_cons, List.sum_nil]
    omega

/-- The per-part block slicer (lines 413-419 of `compute_iou3d`): walk the
samples of one part, cutting each `[gt_box_num, pred_box_num]` diagonal
block out of the part's concatenated IoU matrix by advancing the row and
column offsets. -/
def extractBlocks : List (ℕ × ℕ) → List (List ℚ) → List (List (List ℚ))
  | [], _ => []
  | (gn, pn) :: rest, mat =>
      ((mat.take gn).map (fun row => row.take pn))
        :: extractBlocks rest ((mat.drop gn).map (fun row => row.drop pn))

/-- `compute_iou3d` (lines 384-421) generically over the elementwise IoU
entry function: process the samples part by part, build each part's
concatenated matrix (box counts taken from the `name` field as in the
source) and slice out each sample's block.  On an empty sample collection
the source raises (`np.stack`/`np.concatenate` require at least one
array, lines 397-406) where this total embedding returns `[]`; every
statement below that is evaluated at a concrete input therefore uses a
nonempty sample collection, on which the source runs to completion. -/
def compute_iou3dWith (entry : Box → Box → ℚ) :
    List ℕ → List Anno → List Anno → List (List (List ℚ))
  | [], _, _ => []
  | n :: parts, gts, preds =>
      extractBlocks
        (((gts.take n).zip (preds.take n)).map
          (fun ab => (ab.1.name.length, ab.2.name.length)))
        (((gts.take n).flatMap (fun a => a.boxes_3d)).map fun g =>
          ((preds.take n).flatMap (fun a => a.boxes_3d)).map fun p => entry g p)
      ++ compute_iou3dWith entry parts (gts.drop n) (preds.drop n)

/-- `compute_iou3d` proper, selecting the heading-aware kernel entry as the
source does. -/
def compute_iou3d (pi : ℚ) (inter2d : Box → Box → ℚ) (with_heading : Bool)
    (gt_annos pred_annos : List Anno) (split_parts : List ℕ) :
    List (List (List ℚ)) :=
  compute_iou3dWith
    (if with_heading then iou3dEntryHeading pi inter2d else iou3dEntry inter2d)
    split_parts gt_annos pred_annos

/-- Slicing the concatenated matrix of one part recovers exactly the
per-sample IoU matrices, because every entry of the big matrix depends only
on its own box pair. -/
theorem extractBlocks_spec (entry : Box → Box → ℚ) :
    ∀ ps : List (Anno × Anno),
      (∀ ab ∈ ps, ab.1.name.length = ab.1.boxes_3d.length
        ∧ ab.2.name.length = ab.2.boxes_3d.length) →
      extractBlocks (ps.map fun ab => (ab.1.name.length, ab.2.name.length))
        ((ps.flatMap fun ab => ab.1.boxes_3d).map fun g =>
          (ps.flatMap fun ab => ab.2.boxes_3d).map fun p => entry g p)
        = ps.map fun ab => ab.1.boxes_3d.map fun g =>
            ab.2.boxes_3d.map fun p => entry g p := by
  intro ps
  induction ps with
  | nil => intro _; rfl
  | cons ab rest ih =>
    intro hwf
    have hab := hwf ab (List.mem_cons_self _ _)
    simp only [List.map_cons, List.flatMap_cons]
    rw [extractBlocks]
    rw [hab.1, hab.2]
    congr 1
    · rw [List.map_append, List.take_left' (by simp)]
      rw [List.map_map]
      apply List.map_congr_left
      intro g hg
      dsimp only [Function.comp]
      rw [List.map_append, List.take_left' (by simp)]
    · rw [List.map_append, List.drop_left' (by simp)]
      rw [List.map_map]
      have hrows : ((rest.flatMap fun ab => ab.1.boxes_3d).map
            ((fun row => row.drop ab.2.boxes_3d.length) ∘ fun g =>
              (ab.2.boxes_3d ++ rest.flatMap fun ab => ab.2.boxes_3d).map
                fun p => entry g p))
          = ((rest.flatMap fun ab => ab.1.boxes_3d).map fun g =>
              (rest.flatMap fun ab => ab.2.boxes_3d).map fun p => entry g p) := by
        apply List.map_congr_left
        intro g hg
        dsimp only [Function.comp]
        rw [List.map_append, List.drop_left' (by simp)]
      rw [hrows]
      exact ih (fun x hx => hwf x (List.mem_cons_of_mem ab hx))

theorem zip_flatMap_fst {γ : Type} (f : Anno → List γ) :
    ∀ (l1 l2 : List Anno), l1.length = l2.length →
      ((l1.zip l2).flatMap fun ab => f ab.1) = l1.flatMap f := by
  intro l1
  induction l1 with
  | nil => intro l2 _; rfl
  | cons a as ih =>
    intro l2 h
    cases l2 with
    | nil => simp at h
    | cons b bs =>
      simp only [List.zip_cons_cons, List.flatMap_cons]
      rw [ih bs (by simpa using h)]

theorem zip_flatMap_snd {γ : Type} (f : Anno → List γ) :
    ∀ (l1 l2 : List Anno), l1.length = l2.length →
      ((l1.zip l2).flatMap fun ab => f ab.2) = l2.flatMap f := by
  intro l1
  induction l1 with
  | nil =>
    intro l2 h
    cases l2 with
    | nil => rfl
    | cons b bs => simp at h
  | cons a as ih =>
    intro l2 h
    cases l2 with
    | nil => simp at h
    | cons b bs =>
      simp only [List.zip_cons_cons, List.flatMap_cons]
      rw [ih bs (by simpa using h)]

/-- `compute_iou3d` computes, for any split of the sample list whose part
sizes sum to the sample count, exactly the per-sample IoU matrices: the
part batching is invisible in the result. -/
theorem compute_iou3dWith_eq (entry : Box → Box → ℚ) :
    ∀ (splits : List ℕ) (gts preds : List Anno),
      gts.length = preds.length →
      (∀ a ∈ gts, a.name.length = a.boxes_3d.length) →
      (∀ a ∈ preds, a.name.length = a.boxes_3d.length) →
      splits.sum = gts.length →
      compute_iou3dWith entry splits gts preds
        = (gts.zip preds).map (fun ab =>
            ab.1.boxes_3d.map fun g => ab.2.boxes_3d.map fun p => entry g p) := by
  intro splits
  induction splits with
  | nil =>
    intro gts preds hlen hwg hwp hsum
    have hg0 : gts = [] := List.length_eq_zero.mp (by simpa using hsum.symm)
    subst hg0
    have hp0 : preds = [] := List.length_eq_zero.mp (by simpa using hlen.symm)
    subst hp0
    rfl
  | cons n parts ih =>
    intro gts preds hlen hwg hwp hsum
    rw [compute_iou3dWith]
    have htg : (gts.take n).length = (preds.take n).length := by simp [hlen]
    have hwfzip : ∀ ab ∈ (gts.take n).zip (preds.take n),
        ab.1.name.length = ab.1.boxes_3d.length
          ∧ ab.2.name.length = ab.2.boxes_3d.length := by
      intro ab hab
      have h1 := List.of_mem_zip hab
      exact ⟨hwg _ (List.take_subset n gts h1.1),
             hwp _ (List.take_subset n preds h1.2)⟩
    rw [← zip_flatMap_fst (fun a => a.boxes_3d) (gts.take n) (preds.take n) htg]
    rw [← zip_flatMap_snd (fun a => a.boxes_3d) (gts.take n) (preds.take n) htg]
    rw [extractBlocks_spec entry _ hwfzip]
    have hsum2 : parts.sum = (gts.drop n).length := by
      have hn : n ≤ gts.length := by
        simp only [List.sum_cons] at hsum
        omega
      simp only [List.sum_cons] at hsum
      simp [List.length_drop]
      omega
    rw [ih (gts.drop n) (preds.drop n) (by simp [hlen])
      (fun a ha => hwg a (List.drop_subset n gts ha))
      (fun a ha => hwp a (List.drop_subset n preds ha)) hsum2]
    have hzip : gts.zip preds
        = (gts.take n).zip (preds.take n) ++ (gts.drop n).zip (preds.drop n) := by
      conv_lhs => rw [← List.take_append_drop n gts, ← List.take_append_drop n preds]
      rw [List.zip_append htg]
    rw [hzip, List.map_append]

/-- Modelled from the spec: `overall_filter` (module `eval_utils.py`,
absent from the snapshot): the "overall" difficulty bucket is a catch-all
that ignores no box. -/
def overall_filter (boxes : List Box) : List Bool :=
  boxes.map fun _ => false

/-- Modelled from the spec: `distance_filter` (module `eval_utils.py`,
absent from the snapshot): the distance buckets 0-30m / 30-50m / 50m-inf
classify boxes by distance from the origin; a box is ignored when it falls
outside the selected bucket (squared distances avoid square roots). -/
def distance_filter (boxes : List Box) (level : ℕ) : List Bool :=
  boxes.map fun b =>
    let d2 := b.x * b.x + b.y * b.y
    if level = 0 then decide (900 ≤ d2)
    else if level = 1 then decide (d2 < 900 ∨ 2500 ≤ d2)
    else decide (d2 < 2500)

/-- Modelled from the spec: `overall_distance_filter` (module
`eval_utils.py`, absent from the snapshot): level 0 is the overall
catch-all, levels 1-3 the three distance buckets. -/
def overall_distance_filter (boxes : List Box) (level : ℕ) : List Bool :=
  if level = 0 then overall_filter boxes
  else distance_filter boxes (level - 1)

/-- The class-rejection test of `filter_data` (lines 278-295): under
superclass grouping, `Vehicle` rejects only pedestrians and cyclists;
otherwise a box is rejected when its name differs from the scored class. -/
def classReject (use_superclass : Bool) (class_name nm : String) : Bool :=
  if use_superclass then
    if class_name = "Vehicle" then nm == "Pedestrian" || nm == "Cyclist"
    else nm != class_name
  else nm != class_name

/-- The per-mode ignore mask of `filter_data` (lines 297-313); unsupported
modes raise `NotImplementedError` in the source and are modelled by an
unreachable all-false default. -/
def ignoreMask (difficulty_mode : String) (difficulty_level : ℕ)
    (boxes : List Box) : List Bool :=
  if difficulty_mode = "Overall" then overall_filter boxes
  else if difficulty_mode = "Distance" then distance_filter boxes difficulty_level
  else if difficulty_mode = "Overall&Distance" then
    overall_distance_filter boxes difficulty_level
  else boxes.map fun _ => false

/-- The flags of one annotation: `0` accepted, `-1` rejected
(different class), `1` ignored; `flag[reject] = -1` is assigned before
`flag[ignore] = 1`, so an ignored box ends at `1` even when also
rejected. -/
def annoFlags (difficulty_mode : String) (difficulty_level : ℕ)
    (class_name : String) (use_superclass : Bool) (a : Anno) : List Int :=
  (List.range a.name.length).map fun i =>
    if (ignoreMask difficulty_mode difficulty_level a.boxes_3d).getD i false then 1
    else if classReject use_superclass class_name (a.name.getD i "") then -1
    else 0

/-- `filter_data` (lines 259-315): the ground-truth and prediction flag
arrays of one sample. -/
def filter_data (difficulty_mode : String) (difficulty_level : ℕ)
    (class_name : String) (use_superclass : Bool) (gt_anno pred_anno : Anno) :
    List Int × List Int :=
  (annoFlags difficulty_mode difficulty_level class_name use_superclass gt_anno,
   annoFlags difficulty_mode difficulty_level class_name use_superclass pred_anno)

theorem annoFlags_mem (difficulty_mode : String) (difficulty_level : ℕ)
    (class_name : String) (use_superclass : Bool) (a : Anno) :
    ∀ v ∈ annoFlags difficulty_mode difficulty_level class_name use_superclass a,
      v = -1 ∨ v = 0 ∨ v = 1 := by
  intro v hv
  rcases List.mem_map.mp hv with ⟨i, _, he⟩
  split_ifs at he
  · right; right; exact he.symm
  · left; exact he.symm
  · right; left; exact he.symm

theorem annoFlags_length (difficulty_mode : String) (difficulty_level : ℕ)
    (class_name : String) (use_superclass : Bool) (a : Anno) :
    (annoFlags difficulty_mode difficulty_level class_name use_superclass
      a).length = a.name.length := by
  simp [annoFlags]

/-- The tail of the per-class/per-difficulty evaluation (lines 90-116 and
118-121 for one `(cls_idx, diff_idx)` cell): choose the score thresholds,
accumulate the confusion matrix over the samples, build the precision row,
apply the envelope and integrate the AP.  `data` carries, per sample, the
IoU matrix, the (gt, pred) annotation pair and the flag pair. -/
def evalTail (num_pr_points : ℕ) (iou_threshold : ℚ) (num_valid_gt : ℕ)
    (all_scores : List ℚ)
    (data : List (List (List ℚ) × (Anno × Anno) × (List Int × List Int))) : ℚ :=
  let thresholds := get_thresholds all_scores num_valid_gt num_pr_points
  let confusion := thresholds.map fun s_th =>
    ((data.map fun d =>
        (compute_statistics d.1 d.2.1.2.score d.2.2.1 d.2.2.2 s_th
          iou_threshold).1).sum,
     (data.map fun d =>
        (compute_statistics d.1 d.2.1.2.score d.2.2.1 d.2.2.2 s_th
          iou_threshold).2.1).sum,
     (data.map fun d =>
        (compute_statistics d.1 d.2.1.2.score d.2.2.1 d.2.2.2 s_th
          iou_threshold).2.2).sum)
  let precisionRow := envelopeLoop thresholds.length
    (rawPrecision confusion num_pr_points)
  (((List.range (num_pr_points + 1)).drop 1).map fun i =>
    precisionRow.getD i 0).sum / num_pr_points * 100

/-- The AP of one class and one difficulty level as computed by
`get_evaluation_results` (lines 50-121): part-batched IoU matrices,
per-sample filtering, score accumulation, and the `evalTail` stages. -/
def get_evaluation_resultsAP (pi : ℚ) (inter2d : Box → Box → ℚ)
    (ap_with_heading : Bool) (use_superclass : Bool) (difficulty_mode : String)
    (iou_thresholds : String → ℚ) (num_pr_points num_parts : ℕ)
    (cur_class : String) (diff_idx : ℕ) (gt_annos pred_annos : List Anno) : ℚ :=
  let iou_threshold := iou_thresholds cur_class
  let ious := compute_iou3d pi inter2d ap_with_heading gt_annos pred_annos
    (compute_split_parts gt_annos.length num_parts)
  let pairs := gt_annos.zip pred_annos
  let flagged := pairs.map fun gp =>
    filter_data difficulty_mode diff_idx cur_class use_superclass gp.1 gp.2
  let num_valid_gt := (flagged.map fun fl => fl.1.countP (fun f => f == 0)).sum
  let data := ious.zip (pairs.zip flagged)
  let all_scores := data.flatMap fun d =>
    accumulate_scores d.1 d.2.1.2.score d.2.2.1 d.2.2.2 iou_threshold
  evalTail num_pr_points iou_threshold num_valid_gt all_scores data

/-- `get_thresholds` only sees the score list through its descending sort,
so it is invariant under permutations of the scores. -/
theorem get_thresholds_perm (s1 s2 : List ℚ) (h : s1.Perm s2)
    (num_gt num_pr_points : ℕ) :
    get_thresholds s1 num_gt num_pr_points
      = get_thresholds s2 num_gt num_pr_points := by
  unfold get_thresholds
  have hsorted : s1.insertionSort (· ≤ ·) = s2.insertionSort (· ≤ ·) :=
    @List.eq_of_perm_of_sorted ℚ (· ≤ ·)
      ⟨fun a b h1 h2 => le_antisymm h1 h2⟩ _ _
      ((List.perm_insertionSort _ s1).trans
        (h.trans (List.perm_insertionSort _ s2).symm))
      (List.sorted_insertionSort _ s1)
      (List.sorted_insertionSort _ s2)
  rw [hsorted]

/-- The evaluation tail is invariant when the accumulated scores are
permuted and the per-sample data records are permuted: thresholds depend
on the sorted scores only, and the confusion matrix is a sum over
samples. -/
theorem evalTail_perm (num_pr_points : ℕ) (iou_threshold : ℚ)
    (num_valid_gt : ℕ) (s1 s2 : List ℚ)
    (d1 d2 : List (List (List ℚ) × (Anno × Anno) × (List Int × List Int)))
    (hs : s1.Perm s2) (hd : d1.Perm d2) :
    evalTail num_pr_points iou_threshold num_valid_gt s1 d1
      = evalTail num_pr_points iou_threshold num_valid_gt s2 d2 := by
  unfold evalTail
  dsimp only
  rw [get_thresholds_perm s1 s2 hs num_valid_gt num_pr_points]
  have hconf : (get_thresholds s2 num_valid_gt num_pr_points).map (fun s_th =>
      ((d1.map fun d =>
          (compute_statistics d.1 d.2.1.2.score d.2.2.1 d.2.2.2 s_th
            iou_threshold).1).sum,
       (d1.map fun d =>
          (compute_statistics d.1 d.2.1.2.score d.2.2.1 d.2.2.2 s_th
            iou_threshold).2.1).sum,
       (d1.map fun d =>
          (compute_statistics d.1 d.2.1.2.score d.2.2.1 d.2.2.2 s_th
            iou_threshold).2.2).sum))
      = (get_thresholds s2 num_valid_gt num_pr_points).map (fun s_th =>
      ((d2.map fun d =>
          (compute_statistics d.1 d.2.1.2.score d.2.2.1 d.2.2.2 s_th
            iou_threshold).1).sum,
       (d2.map fun d =>
          (compute_statistics d.1 d.2.1.2.score d.2.2.1 d.2.2.2 s_th
            iou_threshold).2.1).sum,
       (d2.map fun d =>
          (compute_statistics d.1 d.2.1.2.score d.2.2.1 d.2.2.2 s_th
            iou_threshold).2.2).sum)) := by
    apply List.map_congr_left
    intro s_th _
    refine Prod.ext ?_ (Prod.ext ?_ ?_)
    · exact (hd.map _).sum_eq
    · exact (hd.map _).sum_eq
    · exact (hd.map _).sum_eq
  rw [hconf]

theorem zip_zip_map {β γ : Type} (l : List (Anno × Anno))
    (m : Anno × Anno → β) (f : Anno × Anno → γ) :
    (l.map m).zip (l.zip (l.map f)) = l.map fun x => (m x, x, f x) := by
  induction l with
  | nil => rfl
  | cons x xs ih => simp [ih]

/-- The per-sample canonical form of the batched IoU computation. -/
theorem compute_iou3d_eq (pi : ℚ) (inter2d : Box → Box → ℚ)
    (ap_with_heading : Bool) (gts preds : List Anno)
    (hlen : gts.length = preds.length)
    (hwg : ∀ a ∈ gts, a.name.length = a.boxes_3d.length)
    (hwp : ∀ a ∈ preds, a.name.length = a.boxes_3d.length)
    (num_parts : ℕ) (hnp : 0 < num_parts) :
    compute_iou3d pi inter2d ap_with_heading gts preds
        (compute_split_parts gts.length num_parts)
      = (gts.zip preds).map (fun ab => ab.1.boxes_3d.map fun g =>
          ab.2.boxes_3d.map fun p =>
            (if ap_with_heading then iou3dEntryHeading pi inter2d
              else iou3dEntry inter2d) g p) := by
  unfold compute_iou3d
  exact compute_iou3dWith_eq _ _ gts preds hlen hwg hwp
    (compute_split_parts_sum gts.length num_parts hnp)

/-- C5: for every input and any two positive values of `num_parts`, the
evaluation produces identical per-sample IoU matrices and identical AP
values for every class and difficulty: the part-based batching inside
`compute_iou3d` never changes a returned value. -/
theorem C5_parts_immaterial (pi : ℚ) (inter2d : Box → Box → ℚ)
    (ap_with_heading : Bool) (gts preds : List Anno)
    (hlen : gts.length = preds.length)
    (hwg : ∀ a ∈ gts, a.name.length = a.boxes_3d.length)
    (hwp : ∀ a ∈ preds, a.name.length = a.boxes_3d.length)
    (n1 n2 : ℕ) (h1 : 0 < n1) (h2 : 0 < n2) :
    compute_iou3d pi inter2d ap_with_heading gts preds
        (compute_split_parts gts.length n1)
      = compute_iou3d pi inter2d ap_with_heading gts preds
        (compute_split_parts gts.length n2)
    ∧ ∀ (use_superclass : Bool) (difficulty_mode : String)
        (iou_thresholds : String → ℚ) (num_pr_points : ℕ)
        (cur_class : String) (diff_idx : ℕ),
        get_evaluation_resultsAP pi inter2d ap_with_heading use_superclass
            difficulty_mode iou_thresholds num_pr_points n1 cur_class diff_idx
            gts preds
          = get_evaluation_resultsAP pi inter2d ap_with_heading use_superclass
            difficulty_mode iou_thresholds num_pr_points n2 cur_class diff_idx
            gts preds := by
  have e1 := compute_iou3d_eq pi inter2d ap_with_heading gts preds hlen hwg hwp n1 h1
  have e2 := compute_iou3d_eq pi inter2d ap_with_heading gts preds hlen hwg hwp n2 h2
  constructor
  · rw [e1, e2]
  · intro use_superclass difficulty_mode iou_thresholds num_pr_points cur_class diff_idx
    unfold get_evaluation_resultsAP
    rw [e1, e2]

/-- Witness for `C5_parts_immaterial` at a one-sample input and part
counts 1 and 2. -/
theorem C5_parts_immaterial_witness :
    compute_iou3d 3 interMinArea true [⟨["Car"], [cexGtBox], []⟩]
        [⟨["Car"], [cexGtBox], [9/10]⟩] (compute_split_parts 1 1)
      = compute_iou3d 3 interMinArea true [⟨["Car"], [cexGtBox], []⟩]
        [⟨["Car"], [cexGtBox], [9/10]⟩] (compute_split_parts 1 2) :=
  (C5_parts_immaterial 3 interMinArea true [⟨["Car"], [cexGtBox], []⟩]
    [⟨["Car"], [cexGtBox], [9/10]⟩] (by simp) (by simp) (by simp)
    1 2 (by norm_num) (by norm_num)).1

/-- C4: applying the same permutation to the ground-truth and prediction
collections leaves the AP of every class and every difficulty unchanged:
per-sample IoU and matching commute with the permutation, the accumulated
scores are only read through their descending sort, and the confusion
matrix is a sum over samples. -/
theorem C4_sample_order_invariant (pi : ℚ) (inter2d : Box → Box → ℚ)
    (ap_with_heading use_superclass : Bool) (difficulty_mode : String)
    (iou_thresholds : String → ℚ) (num_pr_points num_parts : ℕ)
    (cur_class : String) (diff_idx : ℕ)
    (gts preds gts2 preds2 : List Anno)
    (hlen : gts.length = preds.length) (hlen2 : gts2.length = preds2.length)
    (hwg : ∀ a ∈ gts, a.name.length = a.boxes_3d.length)
    (hwp : ∀ a ∈ preds, a.name.length = a.boxes_3d.length)
    (hwg2 : ∀ a ∈ gts2, a.name.length = a.boxes_3d.length)
    (hwp2 : ∀ a ∈ preds2, a.name.length = a.boxes_3d.length)
    (hnp : 0 < num_parts)
    (hperm : (gts.zip preds).Perm (gts2.zip preds2)) :
    get_evaluation_resultsAP pi inter2d ap_with_heading use_superclass
        difficulty_mode iou_thresholds num_pr_points num_parts cur_class
        diff_idx gts preds
      = get_evaluation_resultsAP pi inter2d ap_with_heading use_superclass
        difficulty_mode iou_thresholds num_pr_points num_parts cur_class
        diff_idx gts2 preds2 := by
  unfold get_evaluation_resultsAP
  dsimp only
  rw [compute_iou3d_eq pi inter2d ap_with_heading gts preds hlen hwg hwp
    num_parts hnp]
  rw [compute_iou3d_eq pi inter2d ap_with_heading gts2 preds2 hlen2 hwg2 hwp2
    num_parts hnp]
  rw [zip_zip_map, zip_zip_map]
  have hnv : (((gts.zip preds).map (fun gp =>
        filter_data difficulty_mode diff_idx cur_class use_superclass
          gp.1 gp.2)).map (fun fl => fl.1.countP (fun f => f == 0))).sum
      = (((gts2.zip preds2).map (fun gp =>
        filter_data difficulty_mode diff_idx cur_class use_superclass
          gp.1 gp.2)).map (fun fl => fl.1.countP (fun f => f == 0))).sum :=
    ((hperm.map _).map _).sum_eq
  rw [hnv]
  exact evalTail_perm _ _ _ _ _ _ _ ((hperm.map _).flatMap_right _)
    (hperm.map _)

/-- Witness for `C4_sample_order_invariant` at a two-sample input and its
swap. -/
theorem C4_sample_order_invariant_witness :
    get_evaluation_resultsAP 3 interMinArea true true "Overall"
        (fun _ => 7/10) 50 100 "Vehicle" 0
        [⟨["Car"], [cexGtBox], []⟩, ⟨[], [], []⟩]
        [⟨["Car"], [cexGtBox], [9/10]⟩, ⟨[], [], []⟩]
      = get_evaluation_resultsAP 3 interMinArea true true "Overall"
        (fun _ => 7/10) 50 100 "Vehicle" 0
        [⟨[], [], []⟩, ⟨["Car"], [cexGtBox], []⟩]
        [⟨[], [], []⟩, ⟨["Car"], [cexGtBox], [9/10]⟩] :=
  C4_sample_order_invariant 3 interMinArea true true "Overall"
    (fun _ => 7/10) 50 100 "Vehicle" 0 _ _ _ _
    (by simp) (by simp)
    (by intro a ha; fin_cases ha <;> simp)
    (by intro a ha; fin_cases ha <;> simp)
    (by intro a ha; fin_cases ha <;> simp)
    (by intro a ha; fin_cases ha <;> simp)
    (by norm_num)
    (by simp [List.zip]; exact List.Perm.swap _ _ _)

/-- When no ground truth is flagged accepted (all flags are -1 or 1), the
true-positive branch of `accumulate_scores` is unreachable and no score is
accumulated. -/
theorem accumulate_scores_no_accepted (iou : List (List ℚ))
    (pred_scores : List ℚ) (gt_flag pred_flag : List Int) (iou_threshold : ℚ)
    (hlen : iou.length ≤ gt_flag.length)
    (hne : ∀ v ∈ gt_flag, v = -1 ∨ v = 1) :
    accumulate_scores iou pred_scores gt_flag pred_flag iou_threshold = [] := by
  unfold accumulate_scores accumFold
  refine foldl_inv (fun (st : AccumState) => st.accum = []) _ _ _ rfl ?_
  intro i hi st hst
  unfold accumStep
  dsimp only
  have hi2 : i < gt_flag.length := lt_of_lt_of_le (List.mem_range.mp hi) hlen
  have hflag : gt_flag.getD i 0 = -1 ∨ gt_flag.getD i 0 = 1 := by
    rw [List.getD_eq_getElem gt_flag 0 hi2]
    exact hne _ (List.getElem_mem hi2)
  by_cases h1 : gt_flag.getD i 0 = -1
  · rw [if_pos h1]
    exact hst
  · rw [if_neg h1]
    have hflag1 : gt_flag.getD i 0 = 1 := by tauto
    by_cases h2 : (accumInner (iou.getD i []) pred_scores pred_flag st.assigned
        iou_threshold).2 = -1 ∧ gt_flag.getD i 0 = 0
    · rw [if_pos h2]
      exact hst
    · rw [if_neg h2]
      by_cases h3 : (accumInner (iou.getD i []) pred_scores pred_flag st.assigned
          iou_threshold).2 ≠ -1
          ∧ (gt_flag.getD i 0 = 1
            ∨ pred_flag.getD (accumInner (iou.getD i []) pred_scores pred_flag
                st.assigned iou_threshold).1.toNat 0 = 1)
      · rw [if_pos h3]
        exact hst
      · rw [if_neg h3]
        by_cases h4 : (accumInner (iou.getD i []) pred_scores pred_flag
            st.assigned iou_threshold).2 ≠ -1
        · exact absurd ⟨h4, Or.inl hflag1⟩ h3
        · rw [if_neg h4]
          exact hst

theorem get_thresholds_nil (num_gt num_pr_points : ℕ) :
    get_thresholds [] num_gt num_pr_points = [] := rfl

/-- With no accumulated scores the threshold list is empty, the confusion
matrix is empty, the precision row stays all-zero and the AP is 0. -/
theorem evalTail_nil_scores (num_pr_points : ℕ) (iou_threshold : ℚ)
    (num_valid_gt : ℕ)
    (data : List (List (List ℚ) × (Anno × Anno) × (List Int × List Int))) :
    evalTail num_pr_points iou_threshold num_valid_gt [] data = 0 := by
  unfold evalTail
  dsimp only
  rw [get_thresholds_nil]
  simp only [List.map_nil, List.length_nil]
  have henv : envelopeLoop 0 (rawPrecision [] num_pr_points)
      = rawPrecision [] num_pr_points := rfl
  rw [henv]
  have hz : ∀ x ∈ ((List.range (num_pr_points + 1)).drop 1).map
      (fun i => (rawPrecision [] num_pr_points).getD i 0), x = 0 := by
    intro x hx
    rcases List.mem_map.mp hx with ⟨i, _, he⟩
    rw [← he]
    unfold rawPrecision
    by_cases hi : i < num_pr_points + 1
    · rw [map_range_getD _ _ _ hi]
      rfl
    · rw [List.getD_eq_default _ _ (by simp; omega)]
  rw [List.sum_eq_zero hz]
  simp

/-- C9: if for some class and difficulty no ground-truth box is flagged
accepted in any sample, then `accumulate_scores` accumulates no score in
any sample, `get_thresholds` maps the empty score list to an empty
threshold list, and the per-class/difficulty AP evaluates to 0 (in
particular the `tp/(tp+fn)` divisions are never reached). -/
theorem C9_zero_accepted_gt (pi : ℚ) (inter2d : Box → Box → ℚ)
    (ap_with_heading use_superclass : Bool) (difficulty_mode : String)
    (iou_thresholds : String → ℚ) (num_pr_points num_parts : ℕ)
    (cur_class : String) (diff_idx : ℕ) (gts preds : List Anno)
    (hlen : gts.length = preds.length)
    (hwg : ∀ a ∈ gts, a.name.length = a.boxes_3d.length)
    (hwp : ∀ a ∈ preds, a.name.length = a.boxes_3d.length)
    (hnp : 0 < num_parts)
    (hno0 : ∀ gp ∈ gts.zip preds,
      ∀ v ∈ (filter_data difficulty_mode diff_idx cur_class use_superclass
        gp.1 gp.2).1, v ≠ 0) :
    (∀ gp ∈ gts.zip preds,
      accumulate_scores
        (gp.1.boxes_3d.map fun g => gp.2.boxes_3d.map fun q =>
          (if ap_with_heading then iou3dEntryHeading pi inter2d
            else iou3dEntry inter2d) g q)
        gp.2.score
        (filter_data difficulty_mode diff_idx cur_class use_superclass
          gp.1 gp.2).1
        (filter_data difficulty_mode diff_idx cur_class use_superclass
          gp.1 gp.2).2
        (iou_thresholds cur_class) = [])
    ∧ (∀ g q : ℕ, get_thresholds [] g q = [])
    ∧ get_evaluation_resultsAP pi inter2d ap_with_heading use_superclass
        difficulty_mode iou_thresholds num_pr_points num_parts cur_class
        diff_idx gts preds = 0 := by
  have haccum : ∀ gp ∈ gts.zip preds,
      accumulate_scores
        (gp.1.boxes_3d.map fun g => gp.2.boxes_3d.map fun q =>
          (if ap_with_heading then iou3dEntryHeading pi inter2d
            else iou3dEntry inter2d) g q)
        gp.2.score
        (filter_data difficulty_mode diff_idx cur_class use_superclass
          gp.1 gp.2).1
        (filter_data difficulty_mode diff_idx cur_class use_superclass
          gp.1 gp.2).2
        (iou_thresholds cur_class) = [] := by
    intro gp hgp
    apply accumulate_scores_no_accepted
    · show _ ≤ (annoFlags difficulty_mode diff_idx cur_class use_superclass
        gp.1).length
      rw [annoFlags_length]
      have hw := hwg gp.1 (List.of_mem_zip hgp).1
      simp [hw]
    · intro v hv
      have h3 := annoFlags_mem difficulty_mode diff_idx cur_class
        use_superclass gp.1 v hv
      have h0 := hno0 gp hgp v hv
      tauto
  refine ⟨haccum, fun g q => get_thresholds_nil g q, ?_⟩
  unfold get_evaluation_resultsAP
  dsimp only
  rw [compute_iou3d_eq pi inter2d ap_with_heading gts preds hlen hwg hwp
    num_parts hnp]
  rw [zip_zip_map]
  have hsc : ((gts.zip preds).map fun x =>
      (x.1.boxes_3d.map fun g => x.2.boxes_3d.map fun p =>
        (if ap_with_heading then iou3dEntryHeading pi inter2d
          else iou3dEntry inter2d) g p, x,
       filter_data difficulty_mode diff_idx cur_class use_superclass
         x.1 x.2)).flatMap (fun d =>
      accumulate_scores d.1 d.2.1.2.score d.2.2.1 d.2.2.2
        (iou_thresholds cur_class)) = [] := by
    rw [List.flatMap_eq_nil_iff]
    intro d hd
    rcases List.mem_map.mp hd with ⟨gp, hgp, he⟩
    rw [← he]
    exact haccum gp hgp
  rw [hsc]
  exact evalTail_nil_scores _ _ _ _

/-- Witness for `C9_zero_accepted_gt`: one sample whose only ground truth
is a pedestrian while the class under evaluation is `Cyclist`, so no box
is flagged accepted. -/
theorem C9_zero_accepted_gt_witness :
    (∀ gp ∈ ([(⟨["Pedestrian"], [cexGtBox], []⟩ : Anno)].zip
        [(⟨["Pedestrian"], [cexGtBox], [9/10]⟩ : Anno)]),
      accumulate_scores
        (gp.1.boxes_3d.map fun g => gp.2.boxes_3d.map fun q =>
          (if true then iou3dEntryHeading 3 interMinArea
            else iou3dEntry interMinArea) g q)
        gp.2.score
        (filter_data "Overall" 0 "Cyclist" false gp.1 gp.2).1
        (filter_data "Overall" 0 "Cyclist" false gp.1 gp.2).2
        ((fun _ : String => (1:ℚ)/2) "Cyclist") = [])
    ∧ (∀ g q : ℕ, get_thresholds [] g q = [])
    ∧ get_evaluation_resultsAP 3 interMinArea true false "Overall"
        (fun _ => 1/2) 50 100 "Cyclist" 0
        [⟨["Pedestrian"], [cexGtBox], []⟩]
        [⟨["Pedestrian"], [cexGtBox], [9/10]⟩] = 0 :=
  C9_zero_accepted_gt 3 interMinArea true false "Overall" (fun _ => 1/2)
    50 100 "Cyclist" 0
    [⟨["Pedestrian"], [cexGtBox], []⟩] [⟨["Pedestrian"], [cexGtBox], [9/10]⟩]
    (by simp) (by simp) (by simp) (by norm_num)
    (by decide)

/-- Left-justified padding to width `w`, the `%-<w>s` format. -/
def padR (w : ℕ) (s : String) : String :=
  s ++ String.mk (List.replicate (w - s.length) ' ')

/-- The `%-12.2f` cell format, modelled as round-half-up to two decimals
(display only; no computed value depends on it). -/
def fmt2 (q : ℚ) : String :=
  let r : ℤ := ⌊q * 100 + 1/2⌋
  let frac := (r % 100).toNat
  padR 12 (toString (r / 100) ++ "." ++
    (if frac < 10 then "0" ++ toString frac else toString frac))

/-- The fixed difficulty-type column order of each mode (lines 55-63);
unsupported modes raise in the source and are modelled by `[]`. -/
def difficultyTypes (difficulty_mode : String) : List String :=
  if difficulty_mode = "Distance" then ["0-30m", "30-50m", "50m-inf"]
  else if difficulty_mode = "Overall" then ["overall"]
  else if difficulty_mode = "Overall&Distance" then
    ["overall", "0-30m", "30-50m", "50m-inf"]
  else []

/-- The class-list adjustment of lines 44-48: with superclass grouping the
vehicle classes are removed and `Vehicle` is inserted at the front. -/
def adjustClasses (use_superclass : Bool) (classes : List String) : List String :=
  if use_superclass then
    "Vehicle" :: classes.filter (fun c => !(c == "Car" || c == "Bus" || c == "Truck"))
  else classes

/-- The report key `AP_<class>/<difficulty>`. -/
def apKey (c d : String) : String := "AP_" ++ c ++ "/" ++ d

/-- `get_evaluation_results` (lines 26-151) restricted to its outputs: the
formatted report text and the keyed AP map (an association list in
insertion order, as a Python dict iterates).  The per-cell AP values come
from `get_evaluation_resultsAP`; the string and the dict are accumulated
with folds mirroring the source's `+=` / `ret_dict[key] =` loops. -/
def get_evaluation_results (pi : ℚ) (inter2d : Box → Box → ℚ)
    (ap_with_heading use_superclass : Bool) (difficulty_mode : String)
    (iou_thresholds : String → ℚ) (num_pr_points num_parts : ℕ)
    (classes : List String) (gt_annos pred_annos : List Anno) :
    String × List (String × ℚ) :=
  let classes2 := adjustClasses use_superclass classes
  let dts := difficultyTypes difficulty_mode
  let ap := fun c di => get_evaluation_resultsAP pi inter2d ap_with_heading
    use_superclass difficulty_mode iou_thresholds num_pr_points num_parts
    c di gt_annos pred_annos
  let mAP := fun di => ((classes2.map fun c => ap c di).sum) / (classes2.length : ℚ)
  let header := "\n|AP@" ++ padR 9 (toString num_pr_points) ++ "|"
    ++ (dts.foldl (fun acc d => acc ++ (padR 12 d ++ "|")) "") ++ "\n"
  let stCls := classes2.foldl (fun st c =>
    let st2 := (List.range dts.length).foldl (fun s2 di =>
        (s2.1 ++ (fmt2 (ap c di) ++ "|"),
         s2.2 ++ [(apKey c (dts.getD di ""), ap c di)]))
      (st.1 ++ ("|" ++ padR 12 c ++ "|"), st.2)
    (st2.1 ++ "\n", st2.2)) (header, [])
  let stMean := (List.range dts.length).foldl (fun s2 di =>
      (s2.1 ++ (fmt2 (mAP di) ++ "|"),
       s2.2 ++ [(apKey "mean" (dts.getD di ""), mAP di)]))
    (stCls.1 ++ ("|" ++ padR 12 "mAP" ++ "|"), stCls.2)
  (stMean.1 ++ "\n", stMean.2)

theorem strJoin_shift : ∀ (l : List String) (x : String),
    l.foldl (fun r s => r ++ s) x = x ++ String.join l := by
  intro l
  induction l with
  | nil => intro x; simp [String.join]
  | cons a l ih =>
    intro x
    show l.foldl (fun r s => r ++ s) (x ++ a) = x ++ String.join (a :: l)
    rw [ih (x ++ a)]
    have hj : String.join (a :: l) = a ++ String.join l := by
      show l.foldl (fun r s => r ++ s) ("" ++ a) = _
      rw [ih ("" ++ a)]
      simp
    rw [hj, String.append_assoc]

theorem strJoin_cons (a : String) (l : List String) :
    String.join (a :: l) = a ++ String.join l := by
  show l.foldl (fun r s => r ++ s) ("" ++ a) = _
  rw [strJoin_shift l ("" ++ a)]
  simp

/-- A fold that appends one string chunk and one dictionary entry per
element produces the joined chunks and the mapped entries. -/
theorem foldl_str_dict {α : Type} (l : List α) (fs : α → String)
    (fd : α → String × ℚ) :
    ∀ s : String × List (String × ℚ),
      (l.foldl (fun s2 di => (s2.1 ++ fs di, s2.2 ++ [fd di])) s)
        = (s.1 ++ String.join (l.map fs), s.2 ++ l.map fd) := by
  induction l with
  | nil => intro s; simp [String.join]
  | cons a l ih =>
    intro s
    rw [List.foldl_cons, ih]
    rw [List.map_cons, strJoin_cons, List.map_cons]
    refine Prod.ext ?_ ?_
    · show s.1 ++ fs a ++ String.join (l.map fs) = _
      rw [String.append_assoc]
    · show s.2 ++ [fd a] ++ l.map fd = s.2 ++ (fd a :: l.map fd)
      rw [List.append_assoc]
      rfl

/-- A fold that appends one row string and one dictionary block per class
produces the joined rows and the flattened blocks. -/
theorem foldl_row_dict (l : List String) (frow : String → String)
    (fdict : String → List (String × ℚ)) :
    ∀ s : String × List (String × ℚ),
      (l.foldl (fun st c => (st.1 ++ frow c, st.2 ++ fdict c)) s)
        = (s.1 ++ String.join (l.map frow), s.2 ++ l.flatMap fdict) := by
  induction l with
  | nil => intro s; simp [String.join]
  | cons a l ih =>
    intro s
    rw [List.foldl_cons, ih]
    rw [List.map_cons, strJoin_cons, List.flatMap_cons]
    refine Prod.ext ?_ ?_
    · show s.1 ++ frow a ++ String.join (l.map frow) = _
      rw [String.append_assoc]
    · show s.2 ++ fdict a ++ l.flatMap fdict = _
      rw [List.append_assoc]

theorem range_getD_map {β : Type} (l : List String) (f : String → β) :
    (List.range l.length).map (fun di => f (l.getD di "")) = l.map f := by
  induction l with
  | nil => rfl
  | cons a l ih =>
    rw [List.length_cons, List.range_succ_eq_map, List.map_cons, List.map_map]
    rw [List.map_cons]
    congr 1

theorem str_empty_append (s : String) : "" ++ s = s := by
  cases s
  rfl

/-- The nested per-class/per-column fold of the report: each class appends
one labelled row of cells to the string and one block of entries to the
dictionary. -/
theorem foldl_row2_dict {α : Type} (dl : List α) (fcell : String → α → String)
    (fent : String → α → String × ℚ) (flab : String → String) :
    ∀ (l : List String) (s : String × List (String × ℚ)),
      (l.foldl (fun st c =>
        ((dl.foldl (fun s2 di => (s2.1 ++ fcell c di, s2.2 ++ [fent c di]))
            (st.1 ++ flab c, st.2)).1 ++ "\n",
         (dl.foldl (fun s2 di => (s2.1 ++ fcell c di, s2.2 ++ [fent c di]))
            (st.1 ++ flab c, st.2)).2)) s)
      = (s.1 ++ String.join (l.map fun c =>
            flab c ++ (String.join (dl.map (fcell c)) ++ "\n")),
         s.2 ++ l.flatMap fun c => dl.map (fent c)) := by
  intro l
  induction l with
  | nil => intro s; simp [String.join]
  | cons a l ih =>
    intro s
    rw [List.foldl_cons]
    rw [foldl_str_dict dl (fcell a) (fent a)]
    dsimp only
    rw [ih]
    rw [List.map_cons, strJoin_cons, List.flatMap_cons]
    refine Prod.ext ?_ ?_
    · show s.1 ++ flab a ++ String.join (dl.map (fcell a)) ++ "\n"
          ++ String.join (l.map fun c =>
              flab c ++ (String.join (dl.map (fcell c)) ++ "\n"))
        = s.1 ++ (flab a ++ (String.join (dl.map (fcell a)) ++ "\n")
          ++ String.join (l.map fun c =>
              flab c ++ (String.join (dl.map (fcell c)) ++ "\n")))
      simp [String.append_assoc]
    · show s.2 ++ dl.map (fent a) ++ l.flatMap (fun c => dl.map (fent c))
        = s.2 ++ (dl.map (fent a) ++ l.flatMap fun c => dl.map (fent c))
      rw [List.append_assoc]

theorem foldl_str {α : Type} (l : List α) (fs : α → String) :
    ∀ x : String, l.foldl (fun acc d => acc ++ fs d) x
      = x ++ String.join (l.map fs) := by
  induction l with
  | nil => intro x; simp [String.join]
  | cons a l ih =>
    intro x
    rw [List.foldl_cons, ih, List.map_cons, strJoin_cons, String.append_assoc]

/-- The header line of the report. -/
def headerStr (num_pr_points : ℕ) (dts : List String) : String :=
  "\n|AP@" ++ padR 9 (toString num_pr_points) ++ "|"
    ++ String.join (dts.map fun d => padR 12 d ++ "|") ++ "\n"

/-- One row of the report: the padded row label and its cells. -/
def reportRow (c : String) (cells : List String) : String :=
  ("|" ++ padR 12 c ++ "|") ++ (String.join cells ++ "\n")

/-- C8 (amended): the class rows of the report text and the
`AP_<class>/<difficulty>` keys of the returned map appear in the order of
the adjusted class list — the caller-supplied order when `use_superclass`
is off, and `Vehicle` followed by the non-vehicle classes in caller order
when it is on — with the difficulty columns in the fixed difficulty-type
order of the chosen mode, followed by the `AP_mean` entries. -/
theorem C8_amended (pi : ℚ) (inter2d : Box → Box → ℚ)
    (ap_with_heading use_superclass : Bool) (difficulty_mode : String)
    (iou_thresholds : String → ℚ) (num_pr_points num_parts : ℕ)
    (classes : List String) (gt_annos pred_annos : List Anno) :
    ((get_evaluation_results pi inter2d ap_with_heading use_superclass
        difficulty_mode iou_thresholds num_pr_points num_parts classes
        gt_annos pred_annos).2.map Prod.fst
      = (adjustClasses use_superclass classes).flatMap (fun c =>
          (difficultyTypes difficulty_mode).map (apKey c))
        ++ (difficultyTypes difficulty_mode).map (apKey "mean"))
    ∧ (use_superclass = false → adjustClasses use_superclass classes = classes)
    ∧ ((get_evaluation_results pi inter2d ap_with_heading use_superclass
        difficulty_mode iou_thresholds num_pr_points num_parts classes
        gt_annos pred_annos).1
      = headerStr num_pr_points (difficultyTypes difficulty_mode)
        ++ String.join ((adjustClasses use_superclass classes).map fun c =>
            reportRow c
              ((List.range (difficultyTypes difficulty_mode).length).map fun di =>
                fmt2 (get_evaluation_resultsAP pi inter2d ap_with_heading
                  use_superclass difficulty_mode iou_thresholds num_pr_points
                  num_parts c di gt_annos pred_annos) ++ "|"))
        ++ reportRow "mAP"
            ((List.range (difficultyTypes difficulty_mode).length).map fun di =>
              fmt2 ((((adjustClasses use_superclass classes).map fun c =>
                  get_evaluation_resultsAP pi inter2d ap_with_heading
                    use_superclass difficulty_mode iou_thresholds num_pr_points
                    num_parts c di gt_annos pred_annos).sum)
                / ((adjustClasses use_superclass classes).length : ℚ)) ++ "|")) := by
  refine ⟨?_, ?_, ?_⟩
  · unfold get_evaluation_results
    dsimp only
    rw [foldl_row2_dict, foldl_str_dict]
    dsimp only
    rw [List.nil_append, List.map_append]
    congr 1
    · rw [List.map_flatMap]
      congr 1
      funext c
      rw [List.map_map]
      rw [← range_getD_map (difficultyTypes difficulty_mode) (apKey c)]
      apply List.map_congr_left
      intro di _
      rfl
    · rw [List.map_map]
      rw [← range_getD_map (difficultyTypes difficulty_mode) (apKey "mean")]
      apply List.map_congr_left
      intro di _
      rfl
  · intro h
    rw [h]
    rfl
  · unfold get_evaluation_results
    dsimp only
    rw [foldl_row2_dict, foldl_str_dict, foldl_str]
    dsimp only
    unfold headerStr reportRow
    simp [String.append_assoc, str_empty_append]

/-- The single-sample annotation pair used to evaluate the C8 statements
at a concrete input: one ground-truth `Car` box and one identical
prediction with score `0.9`, on which the source pipeline (IoU batching
included) runs to completion. -/
def c8GtAnno : Anno := ⟨["Car"], [cexGtBox], []⟩

def c8PredAnno : Anno := ⟨["Car"], [cexGtBox], [9/10]⟩

def c8GtAnnoPed : Anno := ⟨["Pedestrian"], [cexGtBox], []⟩

def c8PredAnnoPed : Anno := ⟨["Pedestrian"], [cexGtBox], [9/10]⟩

theorem C8_amended_witness :
    ((get_evaluation_results 3 interMinArea true false "Overall" (fun _ => 3/10)
        50 1 ["Pedestrian"] [c8GtAnnoPed] [c8PredAnnoPed]).2.map Prod.fst)
      = (adjustClasses false ["Pedestrian"]).flatMap (fun c =>
          (difficultyTypes "Overall").map (apKey c))
        ++ (difficultyTypes "Overall").map (apKey "mean")
    ∧ adjustClasses false ["Pedestrian"] = ["Pedestrian"] :=
  ⟨(C8_amended 3 interMinArea true false "Overall" (fun _ => 3/10) 50 1
      ["Pedestrian"] [c8GtAnnoPed] [c8PredAnnoPed]).1,
   (C8_amended 3 interMinArea true false "Overall" (fun _ => 3/10) 50 1
      ["Pedestrian"] [c8GtAnnoPed] [c8PredAnnoPed]).2.1 rfl⟩

/-- C8 (counterexample): with superclass grouping enabled — the source's
default — the caller-supplied classes `["Car", "Bus", "Truck"]` and one
sample holding a ground-truth `Car` box perfectly matched by a scored
prediction (an input on which the source runs to completion and returns),
the returned map's keys are `AP_Vehicle/overall` followed by
`AP_mean/overall`: no key follows the caller-supplied class order, and no
`AP_Car` key exists at all, because lines 44-48 replace the class list
with `Vehicle`. -/
theorem C8_counterexample :
    ((get_evaluation_results 3 interMinArea true true "Overall" (fun _ => 7/10)
        50 1 ["Car", "Bus", "Truck"] [c8GtAnno] [c8PredAnno]).2.map Prod.fst)
      = ["AP_Vehicle/overall", "AP_mean/overall"]
    ∧ "AP_Car/overall" ∉ ((get_evaluation_results 3 interMinArea true true
        "Overall" (fun _ => 7/10) 50 1
        ["Car", "Bus", "Truck"] [c8GtAnno] [c8PredAnno]).2.map Prod.fst) := by
  refine ⟨?_, ?_⟩
  · rfl
  · intro hmem
    rw [show ((get_evaluation_results 3 interMinArea true true "Overall"
        (fun _ => 7/10) 50 1 ["Car", "Bus", "Truck"]
        [c8GtAnno] [c8PredAnno]).2.map Prod.fst)
        = ["AP_Vehicle/overall", "AP_mean/overall"] from rfl] at hmem
    simp at hmem

end OnceEval
